import Mathlib

/-!
# Enhanced ping tool: packet codec, history ledger, statistics, pacing, probe step

A shallow embedding of `enhanced_ping.c` (and of the checksum routine it shares
with `ping_sender.c`).

Modelling conventions
* A buffer is a `List Nat` of bytes (every element `< 256`); a pointer plus a
  size in the C code is the list of exactly that many bytes.
* Multi-byte header fields are stored in host order; the target is
  little-endian 64-bit Linux, so a 16-bit field at offset `o` is
  `buf[o] + 256 * buf[o+1]`, `sizeof(struct icmphdr) = 8`,
  `sizeof(struct timeval) = 16` and `unsigned long`/`size_t` are 64 bits wide.
* A read or write outside the buffer is undefined behaviour in C; the model
  returns `none` there. A received datagram is the list of the bytes received:
  a read past them (into what the receive buffer held before) is `none` too.
* `double` values (round-trip times, the loss percentage) are modelled by exact
  rationals; comparisons of doubles are exact, sums and quotients are idealised.
* The clock (`gettimeofday`), the random generator (`rand`) and the socket are
  inputs of the model.
-/

namespace EnhancedPing

/-! ## Constants -/

def PACKET_SIZE : Int := 64
def MAX_PACKET_SIZE : Int := 65536
def MAX_RETRY : Int := 3
def MAX_HISTORY : Nat := 1000

def ICMP_ECHOREPLY : Nat := 0
def ICMP_DEST_UNREACH : Nat := 3
def ICMP_ECHO : Nat := 8
def ICMP_TIME_EXCEEDED : Nat := 11

/-- The value of `sizeof(struct icmphdr)`: type, code, checksum, id, sequence. -/
def SIZEOF_ICMPHDR : Nat := 8
/-- The value of `sizeof(struct timeval)` on the 64-bit target: two 8-byte fields. -/
def SIZEOF_TIMEVAL : Nat := 16

/-- The C `struct timeval`. -/
structure timeval where
  tv_sec : Int
  tv_usec : Int
deriving DecidableEq, Repr

/-- The `n` little-endian bytes of `v`. -/
def le_bytes : Nat → Nat → List Nat
  | 0, _ => []
  | n + 1, v => v % 256 :: le_bytes n (v / 256)

/-- The 16 bytes of a `struct timeval` in memory (two 64-bit two's-complement fields). -/
def timeval_bytes (tv : timeval) : List Nat :=
  le_bytes 8 (tv.tv_sec % 2 ^ 64).toNat ++ le_bytes 8 (tv.tv_usec % 2 ^ 64).toNat

/-! ## Memory access -/

/-- Write one byte at offset `off`; `none` when the offset is outside the buffer. -/
def store8 (buf : List Nat) (off v : Nat) : Option (List Nat) :=
  if off < buf.length then some (buf.set off (v % 256)) else none

/-- Write a 16-bit value in host (little-endian) order at offset `off`. -/
def store16 (buf : List Nat) (off v : Nat) : Option (List Nat) :=
  (store8 buf off (v % 256)).bind fun b => store8 b (off + 1) (v / 256 % 256)

/-- Read a 16-bit value in host (little-endian) order at offset `off`. -/
def load16 (buf : List Nat) (off : Nat) : Option Nat :=
  buf[off]?.bind fun lo => buf[off + 1]?.bind fun hi => some (lo + 256 * hi)

/-- Copy `src` into the buffer from offset `off` on, as `memcpy(buf + off, src, |src|)`. -/
def memcpy (buf : List Nat) (off : Nat) : List Nat → Option (List Nat)
  | [] => some buf
  | b :: src => (store8 buf off b).bind fun buf1 => memcpy buf1 (off + 1) src

/-! ## Packet codec -/

/-- The summation loop of `calculate_checksum`: `while (size > 1) { sum += *buf++; size -= 2; }`
followed by `if (size == 1) sum += *(unsigned char *)buf;`, on a 64-bit `unsigned long`. -/
def checksum_sum (sum : Nat) : List Nat → Nat
  | b0 :: b1 :: rest => checksum_sum ((sum + (b0 + 256 * b1)) % 2 ^ 64) rest
  | [b0] => (sum + b0) % 2 ^ 64
  | [] => sum

/-- The two folding statements of `calculate_checksum`:
`sum = (sum >> 16) + (sum & 0xFFFF); sum += (sum >> 16);`. -/
def checksum_fold (sum : Nat) : Nat :=
  let sum1 := ((sum >>> 16) + (sum &&& 0xFFFF)) % 2 ^ 64
  (sum1 + (sum1 >>> 16)) % 2 ^ 64

/-- The function `calculate_checksum(buf, size)` with `buf` the `size` bytes pointed to;
the result is `(unsigned short)(~sum)`. -/
def calculate_checksum (buf : List Nat) : Nat :=
  (2 ^ 64 - 1 - checksum_fold (checksum_sum 0 buf)) % 2 ^ 16

/-- The function `verify_checksum(buf, size)`: save the checksum field, zero it, recompute,
restore, compare. The buffer is left as it was, so only the verdict is returned. -/
def verify_checksum (buf : List Nat) : Option Bool :=
  (load16 buf 2).bind fun original_checksum =>
  (store16 buf 2 0).bind fun zeroed =>
  some (decide (original_checksum = calculate_checksum zeroed))

/-- The pattern loop of `prepare_icmp_packet`:
`for (int i = 0; i < bound; i++) *ptr++ = i & 0xFF;` with `ptr` starting at offset 24.
`fuel` bounds the number of iterations by the buffer length: a write past the buffer
ends the run with `none`. -/
def fill_pattern (bound : Nat) : Nat → Nat → List Nat → Option (List Nat)
  | 0, i, buf => if i < bound then none else some buf
  | fuel + 1, i, buf =>
    if i < bound then
      (store8 buf (SIZEOF_ICMPHDR + SIZEOF_TIMEVAL + i) (i &&& 0xFF)).bind
        fun buf1 => fill_pattern bound fuel (i + 1) buf1
    else some buf

/-- The function `prepare_icmp_packet(icmp_header, seq_num, packet_size)` on a buffer of
`packet_size` bytes; `ident` is the global identifier and `tv` what `gettimeofday` returns.
The loop bound `packet_size - sizeof(struct icmphdr) - sizeof(tv)` is computed in `size_t`. -/
def prepare_icmp_packet (ident : Nat) (tv : timeval) (seq_num : Int) (packet_size : Int) :
    Option (List Nat) :=
  let buf0 := List.replicate packet_size.toNat 0
  (store8 buf0 0 ICMP_ECHO).bind fun buf1 =>
  (store8 buf1 1 0).bind fun buf2 =>
  (store16 buf2 4 (ident % 2 ^ 16)).bind fun buf3 =>
  (store16 buf3 6 (seq_num % 2 ^ 16).toNat).bind fun buf4 =>
  (memcpy buf4 SIZEOF_ICMPHDR (timeval_bytes tv)).bind fun buf5 =>
  (fill_pattern ((packet_size - SIZEOF_ICMPHDR - SIZEOF_TIMEVAL) % 2 ^ 64).toNat
      buf5.length 0 buf5).bind fun buf6 =>
  (store16 buf6 2 0).bind fun buf7 =>
  store16 buf7 2 (calculate_checksum buf7)

/-- The comparison loop of `verify_packet_integrity`:
`for (int i = 0; i < bound; i++) { if (*ptr != (i & 0xFF)) return false; ptr++; }`,
`rest` being the bytes from `ptr` to the end of the received message. -/
def verify_loop (bound : Nat) : Nat → List Nat → Option Bool
  | i, [] => if i < bound then none else some true
  | i, b :: rest =>
    if i < bound then
      if b ≠ i &&& 0xFF then some false else verify_loop bound (i + 1) rest
    else some true

/-- The function `verify_packet_integrity(icmp_header, data_size)`; `icmp` is the ICMP
message from its header on. The loop bound `data_size - sizeof(struct timeval)` is
computed in `size_t`. -/
def verify_packet_integrity (icmp : List Nat) (data_size : Int) : Option Bool :=
  verify_loop ((data_size - SIZEOF_TIMEVAL) % 2 ^ 64).toNat 0
    (icmp.drop (SIZEOF_ICMPHDR + SIZEOF_TIMEVAL))

/-- One bit of the byte at offset `pos` inverted. -/
def flip_bit (buf : List Nat) (pos k : Nat) : List Nat :=
  buf.set pos (buf.getD pos 0 ^^^ 2 ^ k)

/-! ## History ledger -/

/-- The C struct `packet_history_t`. -/
structure packet_history_t where
  seq_num : Int
  sent_time : timeval
  retries : Int
  received : Bool
  rtt : ℚ
  corrupted : Bool
deriving DecidableEq

/-- The global variables that the probe engine mutates: the six run counters, the
array `packet_history` (all `MAX_HISTORY` slots) and `total_packets`. -/
structure ping_state where
  send_count : Int
  original_send_count : Int
  recv_count : Int
  resend_count : Int
  rereceived_count : Int
  corrupt_count : Int
  packet_history : List packet_history_t
  total_packets : Int
deriving DecidableEq

/-- A zero-initialised slot of the global array. -/
def zero_slot : packet_history_t :=
  { seq_num := 0, sent_time := ⟨0, 0⟩, retries := 0, received := false, rtt := 0,
    corrupted := false }

/-- The globals at program start (static storage is zero-initialised). -/
def initial_state : ping_state :=
  { send_count := 0, original_send_count := 0, recv_count := 0, resend_count := 0,
    rereceived_count := 0, corrupt_count := 0,
    packet_history := List.replicate MAX_HISTORY zero_slot, total_packets := 0 }

/-- The array has its `MAX_HISTORY` slots and `total_packets` indexes into it. -/
def ledger_ok (s : ping_state) : Prop :=
  s.packet_history.length = MAX_HISTORY ∧ 0 ≤ s.total_packets ∧ s.total_packets ≤ MAX_HISTORY

/-- The tracked records: slots `0 .. total_packets - 1`. -/
def tracked (s : ping_state) : List packet_history_t :=
  s.packet_history.take s.total_packets.toNat

/-- Assignment to fields of the slot `packet_history[i]`. -/
def update_slot (h : List packet_history_t) (i : Nat)
    (f : packet_history_t → packet_history_t) : List packet_history_t :=
  match h[i]? with
  | some r => h.set i (f r)
  | none => h

/-- The function `add_packet_to_history(seq_num)`; `now` is what `gettimeofday` returns.
The `rtt` field of the slot is not written. -/
def add_packet_to_history (s : ping_state) (seq_num : Int) (now : timeval) : ping_state :=
  if s.total_packets < MAX_HISTORY then
    { s with
      packet_history := update_slot s.packet_history s.total_packets.toNat fun r =>
        { r with seq_num := seq_num, sent_time := now, retries := 0, received := false,
                 corrupted := false }
      total_packets := s.total_packets + 1 }
  else s

/-- The loop of `update_packet_history` over the slots `i, i+1, ..` with `n` slots left
before `total_packets`: the first slot whose `seq_num` matches is overwritten and the loop
returns; the flag tells whether that slot had `retries > 0`. -/
def update_scan (seq_num : Int) (rtt : ℚ) (corrupted : Bool) :
    Nat → List packet_history_t → List packet_history_t × Bool
  | 0, h => (h, false)
  | _ + 1, [] => ([], false)
  | n + 1, r :: rest =>
    if r.seq_num = seq_num then
      ({ r with received := true, rtt := rtt, corrupted := corrupted } :: rest,
        decide (r.retries > 0))
    else
      (r :: (update_scan seq_num rtt corrupted n rest).1,
        (update_scan seq_num rtt corrupted n rest).2)

/-- The function `update_packet_history(seq_num, rtt, corrupted)`. -/
def update_packet_history (s : ping_state) (seq_num : Int) (rtt : ℚ) (corrupted : Bool) :
    ping_state :=
  let p := update_scan seq_num rtt corrupted s.total_packets.toNat s.packet_history
  { s with
    packet_history := p.1
    rereceived_count := if p.2 then s.rereceived_count + 1 else s.rereceived_count }

/-- The loop of `find_packet` with `n` slots left before `total_packets`: the index
(relative to the first slot scanned) of the first slot whose `seq_num` matches. -/
def find_scan (seq_num : Int) : Nat → List packet_history_t → Option Nat
  | 0, _ => none
  | _ + 1, [] => none
  | n + 1, r :: rest =>
    if r.seq_num = seq_num then some 0 else (find_scan seq_num n rest).map (· + 1)

/-- The function `find_packet(seq_num)`; the pointer into the array is its index,
`none` is `NULL`. -/
def find_packet (s : ping_state) (seq_num : Int) : Option Nat :=
  find_scan seq_num s.total_packets.toNat s.packet_history

/-- The retry bookkeeping of the probe loop:
`pkt = find_packet(seq_num); if (pkt) pkt->retries++;`. -/
def increment_retries (s : ping_state) (seq_num : Int) : ping_state :=
  match find_packet s seq_num with
  | some i =>
    { s with packet_history := update_slot s.packet_history i fun r =>
        { r with retries := r.retries + 1 } }
  | none => s

/-- The operations the program performs on the ledger. -/
inductive ledger_op where
  | add (seq_num : Int) (now : timeval)
  | update (seq_num : Int) (rtt : ℚ) (corrupted : Bool)
  | retry (seq_num : Int)

/-- One ledger operation. -/
def apply_op (s : ping_state) : ledger_op → ping_state
  | .add seq_num now => add_packet_to_history s seq_num now
  | .update seq_num rtt corrupted => update_packet_history s seq_num rtt corrupted
  | .retry seq_num => increment_retries s seq_num

/-- A sequence of ledger operations, first to last. -/
def apply_ops (s : ping_state) (ops : List ledger_op) : ping_state :=
  ops.foldl apply_op s

/-- The head of one iteration of the probe loop, after the packet is prepared:
`add_packet_to_history(seq_num); original_send_count++;`. -/
def begin_probe (s : ping_state) (seq_num : Int) (now : timeval) : ping_state :=
  let s1 := add_packet_to_history s seq_num now
  { s1 with original_send_count := s1.original_send_count + 1 }

/-! ## Statistics -/

/-- The value of a C `int` expression: the mathematical value wrapped to 32 bits. -/
def to_int32 (x : Int) : Int :=
  (x + 2 ^ 31) % 2 ^ 32 - 2 ^ 31

/-- Division of doubles; `none` stands for the non-finite result of a division by zero. -/
def fdiv (x y : ℚ) : Option ℚ :=
  if y = 0 then none else some (x / y)

/-- The loss percentage printed by `print_statistics`:
`original_send_count ? ((original_send_count - recv_count) * 100.0) / original_send_count : 0`. -/
def loss_percentage (original_send_count recv_count : Int) : Option ℚ :=
  if original_send_count ≠ 0 then
    fdiv ((to_int32 (original_send_count - recv_count) : ℚ) * 100) (original_send_count : ℚ)
  else some 0

/-- The locals `min_rtt`, `max_rtt`, `avg_rtt`, `rtt_count` of `print_statistics`. -/
structure rtt_acc where
  min_rtt : ℚ
  max_rtt : ℚ
  avg_rtt : ℚ
  rtt_count : Int
deriving DecidableEq

/-- The body of the RTT loop of `print_statistics` for one slot. -/
def rtt_step (a : rtt_acc) (r : packet_history_t) : rtt_acc :=
  if r.received && !r.corrupted then
    let rtt := r.rtt
    let min_rtt := if a.min_rtt = -1 ∨ rtt < a.min_rtt then rtt else a.min_rtt
    let max_rtt := if a.max_rtt = -1 ∨ rtt > a.max_rtt then rtt else a.max_rtt
    { min_rtt := min_rtt, max_rtt := max_rtt, avg_rtt := a.avg_rtt + rtt,
      rtt_count := a.rtt_count + 1 }
  else a

/-- The locals of `print_statistics` before the RTT loop:
`min_rtt = -1, max_rtt = -1, avg_rtt = 0, rtt_count = 0`. -/
def rtt_acc_init : rtt_acc :=
  { min_rtt := -1, max_rtt := -1, avg_rtt := 0, rtt_count := 0 }

/-- The RTT loop of `print_statistics` over the slots `0 .. total_packets - 1`. -/
def rtt_scan (s : ping_state) : rtt_acc :=
  (tracked s).foldl rtt_step rtt_acc_init

/-- The RTT line of `print_statistics`: `none` when the line is not printed, otherwise
the printed `(min, avg, max)`, the average being `avg_rtt / rtt_count`. -/
def rtt_line (s : ping_state) : Option (ℚ × Option ℚ × ℚ) :=
  let a := rtt_scan s
  if a.rtt_count > 0 then some (a.min_rtt, fdiv a.avg_rtt (a.rtt_count : ℚ), a.max_rtt)
  else none

/-- What `print_statistics` reports. -/
structure statistics where
  original : Int
  total : Int
  received : Int
  loss : Option ℚ
  retransmitted : Int
  received_after_retry : Int
  corrupted : Int
  rtt : Option (ℚ × Option ℚ × ℚ)

/-- The function `print_statistics()`. -/
def print_statistics (s : ping_state) : statistics :=
  { original := s.original_send_count, total := s.send_count, received := s.recv_count,
    loss := loss_percentage s.original_send_count s.recv_count,
    retransmitted := s.resend_count, received_after_retry := s.rereceived_count,
    corrupted := s.corrupt_count, rtt := rtt_line s }

/-! ## Pacing policy -/

/-- The C enum `experiment_mode_t`. -/
inductive experiment_mode_t where
  | MODE_STANDARD
  | MODE_AGGRESSIVE
  | MODE_INTERMITTENT
deriving DecidableEq

/-- The function `get_ping_interval()`; `mode` is the global and `r` the value that the
call of `rand()` returns (C `%` truncates towards zero). -/
def get_ping_interval (mode : experiment_mode_t) (r : Int) : Int :=
  match mode with
  | .MODE_AGGRESSIVE => 200
  | .MODE_INTERMITTENT => 500 + Int.tmod r 2500
  | _ => 1000

/-! ## Probe engine -/

def RETRY_INTERVAL : Int := 500

/-- The run configuration after argument parsing: the global `ident` and the locals
`packet_size`, `count`, `interval`, `retries` of `main`. -/
structure ping_config where
  ident : Nat
  packet_size : Int
  count : Int
  interval : Int
  retries : Int

/-- What the outside world does during one pass of the retry loop: the clock read by
`prepare_icmp_packet` on a retry, the clock read before `sendto`, whether `sendto`
succeeded, and the datagram that `recvfrom` delivered within the timeout together with
the clock read after it (`none`: `select` or `recvfrom` returned nothing). -/
structure attempt_env where
  prepare_time : timeval
  send_time : timeval
  send_ok : Bool
  inbound : Option (List Nat × timeval)

/-- The round-trip time in milliseconds:
`(recv.tv_sec - send.tv_sec) * 1000.0 + (recv.tv_usec - send.tv_usec) / 1000.0`. -/
def rtt_ms (send_time recv_time : timeval) : ℚ :=
  ((recv_time.tv_sec - send_time.tv_sec : Int) : ℚ) * 1000 +
    ((recv_time.tv_usec - send_time.tv_usec : Int) : ℚ) / 1000

/-- The value of `ip_header->ihl * 4`: the low four bits of the first byte, times four. -/
def ip_header_len (bytes : List Nat) : Nat :=
  bytes.headD 0 % 16 * 4

/-- The ICMP message inside a received datagram: `recv_packet + ip_header_len`. -/
def icmp_of (bytes : List Nat) : List Nat :=
  bytes.drop (ip_header_len bytes)

/-- The local `data_size = bytes_received - ip_header_len - sizeof(struct icmphdr)`. -/
def data_size_of (bytes : List Nat) : Int :=
  (bytes.length : Int) - (ip_header_len bytes : Int) - (SIZEOF_ICMPHDR : Int)

/-- The match test of the probe loop, evaluated left to right:
`type == ICMP_ECHOREPLY && un.echo.id == ident && un.echo.sequence == seq_num`, the 16-bit
identifier field being compared with the 16-bit global `ident` and the 16-bit sequence
field with the `int` counter. -/
def is_our_reply (ident : Nat) (seq_num : Int) (icmp : List Nat) : Option Bool :=
  icmp[0]?.bind fun type =>
    if type = ICMP_ECHOREPLY then
      (load16 icmp 4).bind fun id =>
        if id = ident % 2 ^ 16 then
          (load16 icmp 6).bind fun sequence => some (decide ((sequence : Int) = seq_num))
        else some false
    else some false

/-- The treatment of a received datagram (`bytes_received > 0`) in the probe loop: the
new globals and the new value of `packet_received`. Destination-unreachable and
time-exceeded messages, like any other non-matching message, are only logged. -/
def handle_datagram (ident : Nat) (seq_num : Int) (s : ping_state) (bytes : List Nat)
    (rtt : ℚ) : Option (ping_state × Bool) :=
  (is_our_reply ident seq_num (icmp_of bytes)).bind fun ours =>
    if ours then
      (verify_checksum (icmp_of bytes)).bind fun checksum_valid =>
      (verify_packet_integrity (icmp_of bytes) (data_size_of bytes)).bind fun data_valid =>
        let is_corrupted := !checksum_valid || !data_valid
        let s1 := { s with recv_count := s.recv_count + 1 }
        let s2 := if is_corrupted then { s1 with corrupt_count := s1.corrupt_count + 1 } else s1
        some (update_packet_history s2 seq_num rtt is_corrupted, true)
    else some (s, false)

/-- One pass of the retry loop up to, not including, `current_tries++`: the retry
bookkeeping when `current_tries > 0`, the transmission, the reception. -/
def attempt (cfg : ping_config) (seq_num current_tries : Int) (s : ping_state)
    (env : attempt_env) : Option (ping_state × Bool) :=
  (if current_tries > 0 then
      (prepare_icmp_packet cfg.ident env.prepare_time seq_num cfg.packet_size).map fun _ =>
        increment_retries { s with resend_count := s.resend_count + 1 } seq_num
    else some s).bind fun s1 =>
  let s2 := if env.send_ok then { s1 with send_count := s1.send_count + 1 } else s1
  match env.inbound with
  | some (bytes, recv_time) =>
    if bytes.length > 0 then
      handle_datagram cfg.ident seq_num s2 bytes (rtt_ms env.send_time recv_time)
    else some (s2, false)
  | none => some (s2, false)

/-- The inputs of a run: the value of `stop_ping` read at the top of each probe-loop
iteration, the clock read by `prepare_icmp_packet` and by `add_packet_to_history` there,
and the world during each transmission attempt, numbered over the whole run. -/
structure environment where
  stop_ping : Nat → Bool
  probe_time : Nat → timeval
  history_time : Nat → timeval
  attempts : Nat → attempt_env

/-- The state of the probe loop: the globals, the local `seq_num`, how many probe-loop
iterations and transmission attempts have been started, and the arguments of the
`usleep` calls made so far (microseconds). -/
structure run_state where
  globals : ping_state
  seq_num : Int
  iterations : Nat
  attempts : Nat
  sleeps : List Int

/-- The retry loop `while (!packet_received && current_tries <= retries) { .. }` of one
sequence number. It is entered with `packet_received = false`; each pass either breaks
or leaves it false. `fuel` bounds the number of passes. -/
def retry_loop (cfg : ping_config) (env : environment) :
    Nat → Int → run_state → Option run_state
  | 0, current_tries, st => if current_tries ≤ cfg.retries then none else some st
  | fuel + 1, current_tries, st =>
    if current_tries ≤ cfg.retries then
      (attempt cfg st.seq_num current_tries st.globals (env.attempts st.attempts)).bind fun r =>
        let st1 := { st with globals := r.1, attempts := st.attempts + 1 }
        if r.2 || current_tries + 1 > cfg.retries then some st1
        else
          retry_loop cfg env fuel (current_tries + 1)
            { st1 with sleeps := st1.sleeps ++ [RETRY_INTERVAL * 1000] }
    else some st

/-- The probe loop `while (!stop_ping && (count == -1 || original_send_count < count))`
of `main`. `fuel` bounds the number of iterations. -/
def probe_loop (cfg : ping_config) (env : environment) : Nat → run_state → Option run_state
  | 0, _ => none
  | fuel + 1, st =>
    if !env.stop_ping st.iterations &&
        (cfg.count == -1 || decide (st.globals.original_send_count < cfg.count)) then
      (prepare_icmp_packet cfg.ident (env.probe_time st.iterations) st.seq_num
          cfg.packet_size).bind fun _ =>
      let g := begin_probe st.globals st.seq_num (env.history_time st.iterations)
      (retry_loop cfg env (cfg.retries + 1).toNat 0
          { st with globals := g, iterations := st.iterations + 1 }).bind fun st1 =>
      let st2 := { st1 with seq_num := st1.seq_num + 1 }
      if cfg.count != -1 && decide (st2.globals.original_send_count ≥ cfg.count) then some st2
      else probe_loop cfg env fuel { st2 with sleeps := st2.sleeps ++ [cfg.interval * 1000] }
    else some st

/-- The state in which `main` enters the probe loop. -/
def initial_run_state : run_state :=
  { globals := initial_state, seq_num := 0, iterations := 0, attempts := 0, sleeps := [] }

/-! ## Closed forms, the checksum as the specification words it, and concrete inputs -/

/-- The bytes `i mod 256, (i+1) mod 256, ..` (`k` of them) that the pattern loop writes. -/
def pattern_bytes : Nat → Nat → List Nat
  | _, 0 => []
  | i, k + 1 => i % 256 :: pattern_bytes (i + 1) k

/-- The eight header bytes of an echo request whose checksum field holds `ck`. -/
def echo_header (ident : Nat) (seq_num : Int) (ck : Nat) : List Nat :=
  [ICMP_ECHO, 0, ck % 256, ck / 256 % 256, ident % 2 ^ 16 % 256, ident % 2 ^ 16 / 256 % 256,
   (seq_num % 2 ^ 16).toNat % 256, (seq_num % 2 ^ 16).toNat / 256 % 256]

/-- Header, timestamp and `n` pattern bytes: the shape of every packet that
`prepare_icmp_packet` completes (see `prepare_icmp_packet_eq`). -/
def echo_packet (ident : Nat) (tv : timeval) (seq_num : Int) (n ck : Nat) : List Nat :=
  echo_header ident seq_num ck ++ (timeval_bytes tv ++ pattern_bytes 0 n)

/-- The 16-bit words of a buffer in host order, a trailing odd byte counting as one more
word. -/
def buffer_words : List Nat → List Nat
  | b0 :: b1 :: rest => (b0 + 256 * b1) :: buffer_words rest
  | [b0] => [b0]
  | [] => []

/-- End-around carry: the part above 16 bits is added back until the value fits in
16 bits. -/
def end_around_fold (s : Nat) : Nat :=
  if h : s < 2 ^ 16 then s else end_around_fold (s / 2 ^ 16 + s % 2 ^ 16)
termination_by s
decreasing_by omega

/-- The ones'-complement sum of the 16-bit words of a buffer, in the specification's
words: the sum of the words with the end-around carry folded until it fits in 16 bits. -/
def ones_complement_sum (buf : List Nat) : Nat :=
  end_around_fold (buffer_words buf).sum

/-- The standard Internet checksum in the specification's words: the bitwise complement,
on 16 bits, of the ones'-complement sum. -/
def internet_checksum (buf : List Nat) : Nat :=
  ones_complement_sum buf ^^^ 0xFFFF

/-- The round-trip times that the RTT loop counts: those of the records with
`received && !corrupted`, in ledger order. -/
def counted_rtts (l : List packet_history_t) : List ℚ :=
  (l.filter fun r => r.received && !r.corrupted).map fun r => r.rtt

/-- A ledger with one tracked probe that has been retried once: sequence 0 was sent and
one retry was issued for it. -/
def retried_ledger : ping_state :=
  increment_retries (add_packet_to_history initial_state 0 ⟨100, 0⟩) 0

/-- The ledger after two answered probes when the wall clock was set back by 1 ms between
the first transmission and its reply: the first round-trip time is -1 ms, the second is
5 ms. -/
def clock_step_ledger : ping_state :=
  apply_ops initial_state
    [.add 0 ⟨100, 5000⟩, .add 1 ⟨101, 0⟩,
     .update 0 (rtt_ms ⟨100, 5000⟩ ⟨100, 4000⟩) false,
     .update 1 (rtt_ms ⟨101, 0⟩ ⟨101, 5000⟩) false]

/-- An echo reply for identifier 77, sequence 0, as `recvfrom` delivers it: a 20-byte IP
header, the 8-byte ICMP header (checksum `0xEFA6`, right for the undamaged message), a
16-byte timestamp and the 8-byte pattern `0..7` in which the byte `3` arrived as `0x83`,
one bit inverted in transit. -/
def corrupted_reply : List Nat :=
  [0x45, 0, 0, 52, 0, 0, 0, 0, 64, 1, 0, 0, 10, 0, 0, 2, 10, 0, 0, 1,
   0, 0, 0xA6, 0xEF, 77, 0, 0, 0,
   0, 0, 0, 0, 0, 0, 0, 0, 0, 0, 0, 0, 0, 0, 0, 0,
   0, 1, 2, 0x83, 4, 5, 6, 7]

/-- A run with identifier 77, 32-byte packets, one probe and up to three retries. -/
def sample_config : ping_config :=
  { ident := 77, packet_size := 32, count := 1, interval := 1000, retries := 3 }

/-- A world in which every transmission succeeds and is answered after 1.5 ms by
`corrupted_reply`. -/
def sample_environment : environment :=
  { stop_ping := fun _ => false
    probe_time := fun _ => ⟨10, 0⟩
    history_time := fun _ => ⟨10, 0⟩
    attempts := fun _ =>
      { prepare_time := ⟨10, 0⟩
        send_time := ⟨10, 0⟩
        send_ok := true
        inbound := some (corrupted_reply, ⟨10, 1500⟩) } }

/-- The probe loop just after `add_packet_to_history(0); original_send_count++`. -/
def sample_run_state : run_state :=
  { globals := begin_probe initial_state 0 ⟨10, 0⟩, seq_num := 0, iterations := 1,
    attempts := 0, sleeps := [] }

/-! ## Startup, sample worlds and the bookkeeping of a run -/

/-- The size validation of `main`:
`if (packet_size < sizeof(struct icmphdr) + 8 || packet_size > MAX_PACKET_SIZE)` reject;
true when the size is rejected. The first comparison is made in `size_t`, to which
`packet_size` is converted. -/
def packet_size_rejected (packet_size : Int) : Bool :=
  decide ((packet_size % 2 ^ 64).toNat < SIZEOF_ICMPHDR + 8) ||
    decide (packet_size > MAX_PACKET_SIZE)

/-- The startup default of `main`: `if (interval == -1) interval = get_ping_interval();`,
with `interval_arg` the value after argument parsing (`-1` without `-i`) and `r` the value
that the call of `rand()` returns. -/
def startup_interval (interval_arg : Int) (mode : experiment_mode_t) (r : Int) : Int :=
  if interval_arg = -1 then get_ping_interval mode r else interval_arg

/-- A 20-byte IP header (protocol ICMP, from 10.0.0.2 to 10.0.0.1). -/
def reply_ip_header : List Nat :=
  [0x45, 0, 0, 0, 0, 0, 0, 0, 64, 1, 0, 0, 10, 0, 0, 2, 10, 0, 0, 1]

/-- The datagram with which a host answers an echo request: the type becomes
`ICMP_ECHOREPLY`, the checksum is recomputed, identifier, sequence and payload are copied
unchanged; an IP header precedes it. -/
def echo_reply_to (request : List Nat) : Option (List Nat) :=
  (store8 request 0 ICMP_ECHOREPLY).bind fun r =>
  (store16 r 2 0).bind fun z =>
  (store16 z 2 (calculate_checksum z)).map fun icmp => reply_ip_header ++ icmp

/-- The answer of the target to the probe that `prepare_icmp_packet` builds for `seq_num`,
received 1500 microseconds after the clock value `tv`; `none` when the request cannot
be built. -/
def answer (ident : Nat) (tv : timeval) (seq_num packet_size : Int) :
    Option (List Nat × timeval) :=
  ((prepare_icmp_packet ident tv seq_num packet_size).bind echo_reply_to).map fun bytes =>
    (bytes, ⟨tv.tv_sec, tv.tv_usec + 1500⟩)

/-- A world without stop request in which every transmission succeeds and the `k`-th
transmission attempt of the run is answered by the target's reply to the probe with
sequence number `k`: the world of a run in which every probe is answered at once. -/
def answering_environment (cfg : ping_config) : environment :=
  { stop_ping := fun _ => false
    probe_time := fun _ => ⟨10, 0⟩
    history_time := fun _ => ⟨10, 0⟩
    attempts := fun k =>
      { prepare_time := ⟨10, 0⟩
        send_time := ⟨10, 0⟩
        send_ok := true
        inbound := answer cfg.ident ⟨10, 0⟩ k cfg.packet_size } }

/-- A world in which the datagrams `arrivals` all reach the socket during the wait of the
first transmission attempt: the `k`-th call of `recvfrom` returns the `k`-th of them, later
calls time out. Every transmission succeeds. -/
def arrival_environment (arrivals : List (List Nat × timeval)) : environment :=
  { stop_ping := fun _ => false
    probe_time := fun _ => ⟨10, 0⟩
    history_time := fun _ => ⟨10, 0⟩
    attempts := fun k =>
      { prepare_time := ⟨10, 0⟩
        send_time := ⟨10, 0⟩
        send_ok := true
        inbound := arrivals[k]? } }

/-- An echo reply for identifier 77, sequence 0 with an 8-byte payload, as `recvfrom`
delivers it: a 20-byte IP header, the 8-byte ICMP header and the bytes `0..7`. -/
def short_reply : List Nat :=
  [0x45, 0, 0, 36, 0, 0, 0, 0, 64, 1, 0, 0, 10, 0, 0, 2, 10, 0, 0, 1,
   0, 0, 0xA6, 0xEF, 77, 0, 0, 0,
   0, 1, 2, 3, 4, 5, 6, 7]

/-- A destination-unreachable message (type 3, code 1) about the 32-byte probe with
identifier 77, sequence 0: IP header, ICMP header, then the IP header and the first 8 bytes
of the probe. -/
def dest_unreach : List Nat :=
  reply_ip_header ++ [3, 1, 0x79, 0xCF, 0, 0, 0, 0] ++
    [0x45, 0, 0, 52, 0, 0, 0, 0, 64, 1, 0, 0, 10, 0, 0, 1, 10, 0, 0, 9] ++
    [8, 0, 0x94, 0xEF, 77, 0, 0, 0]

/-- The four run counters that the scenarios of the probe loop speak about:
`original_send_count`, `send_count`, `resend_count`, `recv_count`. -/
def counters (s : ping_state) : Int × Int × Int × Int :=
  (s.original_send_count, s.send_count, s.resend_count, s.recv_count)

/-- How many sequences below `k` are in the set `U`. -/
def unanswered_below (U : Finset Nat) (k : Nat) : Nat :=
  (U.filter fun u => u < k).card

/-- The number, over the whole run, of the first transmission attempt for sequence `k`
when every sequence in `U` uses `r + 1` attempts and every other sequence one. -/
def first_attempt (U : Finset Nat) (r k : Nat) : Nat :=
  k + r * unanswered_below U k

/-- The state of the probe loop at the start of the iteration for sequence `k` in a run in
which the sequences in `U` stay unanswered through `r` retries and the others are matched
at once. -/
def scenario_invariant (U : Finset Nat) (r k : Nat) (st : run_state) : Prop :=
  st.seq_num = k ∧ st.attempts = first_attempt U r k ∧
  counters st.globals =
    ((k : Int), (k : Int) + r * unanswered_below U k, (r : Int) * unanswered_below U k,
      (k : Int) - unanswered_below U k)

/-- Whether what `recvfrom` delivered is the awaited reply: a datagram that passes the
match test for `seq_num` and on which both verification functions return a verdict. -/
def is_matched (ident : Nat) (seq_num : Int) (inbound : Option (List Nat × timeval)) : Bool :=
  match inbound with
  | some (bytes, _) =>
    decide (is_our_reply ident seq_num (icmp_of bytes) = some true) &&
      (verify_checksum (icmp_of bytes)).isSome &&
      (verify_packet_integrity (icmp_of bytes) (data_size_of bytes)).isSome
  | none => false

/-- A run of five probes without retries. -/
def all_answered_config : ping_config :=
  { ident := 77, packet_size := 32, count := 5, interval := 1000, retries := 0 }

/-- A run of three probes with up to two retries each. -/
def lossy_config : ping_config :=
  { ident := 77, packet_size := 32, count := 3, interval := 1000, retries := 2 }

/-- A world in which sequence 1 is never answered: the first transmission (sequence 0) and
the fifth (sequence 2, after the three transmissions of sequence 1) receive the target's
reply, the others receive nothing. -/
def lossy_environment : environment :=
  { stop_ping := fun _ => false
    probe_time := fun _ => ⟨10, 0⟩
    history_time := fun _ => ⟨10, 0⟩
    attempts := fun k =>
      { prepare_time := ⟨10, 0⟩
        send_time := ⟨10, 0⟩
        send_ok := true
        inbound :=
          if k = 0 then answer 77 ⟨10, 0⟩ 0 32
          else if k = 4 then answer 77 ⟨10, 0⟩ 2 32
          else none } }

/-! ## Packet codec -/

theorem and_255 (i : Nat) : i &&& 0xFF = i % 256 :=
  Nat.and_pow_two_sub_one_eq_mod i 8

theorem store8_append (pre post : List Nat) (x v off : Nat) (h : off = pre.length) :
    store8 (pre ++ x :: post) off v = some (pre ++ v % 256 :: post) := by
  subst h
  simp [store8]

theorem fill_pattern_replicate (k : Nat) : ∀ (fuel i : Nat) (pre : List Nat),
    pre.length = 24 + i → k ≤ fuel →
    fill_pattern (i + k) fuel i (pre ++ List.replicate k 0) = some (pre ++ pattern_bytes i k) := by
  induction k with
  | zero =>
    intro fuel i pre _ _
    cases fuel <;> simp [fill_pattern, pattern_bytes]
  | succ k ih =>
    intro fuel i pre hpre hfuel
    obtain ⟨fuel, rfl⟩ : ∃ f, fuel = f + 1 := ⟨fuel - 1, by omega⟩
    have hlt : i < i + (k + 1) := by omega
    rw [fill_pattern, if_pos hlt, List.replicate_succ,
      store8_append pre _ 0 _ _ (by simp [SIZEOF_ICMPHDR, SIZEOF_TIMEVAL, hpre])]
    have := ih fuel (i + 1) (pre ++ [i % 256]) (by simp [hpre]; omega) (by omega)
    simp only [List.append_assoc, List.singleton_append] at this
    simp only [Option.some_bind, and_255, Nat.mod_mod, pattern_bytes]
    rw [← this]
    congr 1
    omega

theorem store8_zero (a : Nat) (l : List Nat) (v : Nat) :
    store8 (a :: l) 0 v = some (v % 256 :: l) := by
  simp [store8]

theorem store8_succ (a : Nat) (l : List Nat) (n v : Nat) :
    store8 (a :: l) (n + 1) v = (store8 l n v).map (fun t => a :: t) := by
  unfold store8
  by_cases h : n < l.length <;> simp [h]

theorem le_bytes_length (n v : Nat) : (le_bytes n v).length = n := by
  induction n generalizing v with
  | zero => rfl
  | succ n ih => simp [le_bytes, ih]

theorem le_bytes_lt (n v : Nat) : ∀ b ∈ le_bytes n v, b < 256 := by
  induction n generalizing v with
  | zero => simp [le_bytes]
  | succ n ih =>
    intro b hb
    simp only [le_bytes, List.mem_cons] at hb
    rcases hb with rfl | hb
    · exact Nat.mod_lt _ (by norm_num)
    · exact ih _ b hb

theorem timeval_bytes_length (tv : timeval) : (timeval_bytes tv).length = 16 := by
  simp [timeval_bytes, le_bytes_length]

theorem timeval_bytes_lt (tv : timeval) : ∀ b ∈ timeval_bytes tv, b < 256 := by
  intro b hb
  simp only [timeval_bytes, List.mem_append] at hb
  rcases hb with hb | hb <;> exact le_bytes_lt _ _ b hb

theorem memcpy_append (src : List Nat) : ∀ (pre old post : List Nat),
    old.length = src.length → (∀ b ∈ src, b < 256) →
    memcpy (pre ++ (old ++ post)) pre.length src = some (pre ++ (src ++ post)) := by
  induction src with
  | nil =>
    intro pre old post h _
    have : old = [] := List.length_eq_zero.mp h
    simp [memcpy, this]
  | cons b src ih =>
    intro pre old post h hb
    obtain ⟨x, old, rfl⟩ : ∃ x t, old = x :: t := by
      cases old with
      | nil => simp at h
      | cons x t => exact ⟨x, t, rfl⟩
    have h1 : b % 256 = b := Nat.mod_eq_of_lt (hb b (by simp))
    have := ih (pre ++ [b]) old post (by simpa using h) (fun c hc => hb c (by simp [hc]))
    simp only [List.append_assoc, List.singleton_append, List.length_append, List.length_singleton,
      List.cons_append, List.nil_append] at this
    simp only [memcpy, List.append_assoc, List.cons_append]
    rw [store8_append pre _ x b _ rfl, Option.some_bind, h1, this]

theorem header_stores {α : Type} (ident : Nat) (seq_num : Int) (rest : List Nat)
    (k : List Nat → Option α) :
    ((store8 ([0, 0, 0, 0, 0, 0, 0, 0] ++ rest) 0 ICMP_ECHO).bind fun buf1 =>
      (store8 buf1 1 0).bind fun buf2 =>
      (store16 buf2 4 (ident % 2 ^ 16)).bind fun buf3 =>
      (store16 buf3 6 (seq_num % 2 ^ 16).toNat).bind k) =
      k (echo_header ident seq_num 0 ++ rest) := by
  simp only [store16, List.cons_append, List.nil_append, store8_zero, store8_succ, Option.map_some',
    Option.some_bind, echo_header, ICMP_ECHO, Nat.mod_mod, Nat.zero_mod, Nat.zero_div]

theorem store16_checksum (ident : Nat) (seq_num : Int) (c v : Nat) (rest : List Nat) :
    store16 (echo_header ident seq_num c ++ rest) 2 v =
      some (echo_header ident seq_num v ++ rest) := by
  simp only [store16, List.cons_append, List.nil_append, store8_zero, store8_succ, Option.map_some',
    Option.some_bind, echo_header, Nat.mod_mod]

theorem echo_header_length (ident : Nat) (seq_num : Int) (c : Nat) :
    (echo_header ident seq_num c).length = 8 := rfl

theorem prepare_icmp_packet_eq (ident : Nat) (tv : timeval) (seq_num : Int) (m : Nat)
    (hm : (m : Int) + 24 ≤ 65536) :
    prepare_icmp_packet ident tv seq_num (m + 24) =
      some (echo_packet ident tv seq_num m
        (calculate_checksum (echo_packet ident tv seq_num m 0))) := by
  have hn : ((m : Int) + 24).toNat = m + 24 := by omega
  have hb : (((m : Int) + 24 - (SIZEOF_ICMPHDR : Int) - (SIZEOF_TIMEVAL : Int)) % 2 ^ 64).toNat
      = 0 + m := by
    simp only [SIZEOF_ICMPHDR, SIZEOF_TIMEVAL]; omega
  have hz : List.replicate (m + 24) 0 =
      [0, 0, 0, 0, 0, 0, 0, 0] ++ (List.replicate 16 0 ++ List.replicate m 0) := by
    rw [Nat.add_comm, List.replicate_add]; rfl
  have hcpy := memcpy_append (timeval_bytes tv) (echo_header ident seq_num 0)
    (List.replicate 16 0) (List.replicate m 0) (by simp [timeval_bytes_length])
    (timeval_bytes_lt tv)
  have hfill := fill_pattern_replicate m
    (echo_header ident seq_num 0 ++ (timeval_bytes tv ++ List.replicate m 0)).length 0
    (echo_header ident seq_num 0 ++ timeval_bytes tv)
    (by simp [echo_header_length, timeval_bytes_length])
    (by simp only [List.length_append, List.length_replicate]; omega)
  rw [List.append_assoc, List.append_assoc] at hfill
  unfold prepare_icmp_packet
  rw [hn, hb, hz, header_stores]
  change ((memcpy _ (echo_header ident seq_num 0).length _).bind _) = _
  rw [hcpy, Option.some_bind, hfill, Option.some_bind, store16_checksum, Option.some_bind,
    store16_checksum]
  rfl

theorem verify_loop_pattern (k : Nat) : ∀ i : Nat,
    verify_loop (i + k) i (pattern_bytes i k) = some true := by
  induction k with
  | zero => intro i; simp [verify_loop, pattern_bytes]
  | succ k ih =>
    intro i
    have hlt : i < i + (k + 1) := by omega
    have := ih (i + 1)
    rw [show i + 1 + k = i + (k + 1) by omega] at this
    simp [verify_loop, pattern_bytes, hlt, and_255, this]

theorem verify_loop_pattern_set (k : Nat) : ∀ (i j v : Nat), j < k → v ≠ (i + j) % 256 →
    verify_loop (i + k) i ((pattern_bytes i k).set j v) = some false := by
  induction k with
  | zero => intro i j v hj; omega
  | succ k ih =>
    intro i j v hj hv
    have hlt : i < i + (k + 1) := by omega
    cases j with
    | zero =>
      simp only [pattern_bytes, List.set_cons_zero, verify_loop, if_pos hlt, and_255]
      rw [if_pos (by simpa using hv)]
    | succ j =>
      have := ih (i + 1) j v (by omega) (by rwa [show i + 1 + j = i + (j + 1) by omega])
      rw [show i + 1 + k = i + (k + 1) by omega] at this
      simp [pattern_bytes, verify_loop, hlt, and_255, this]

theorem pattern_bytes_length (k : Nat) : ∀ i, (pattern_bytes i k).length = k := by
  induction k with
  | zero => intro i; rfl
  | succ k ih => intro i; simp [pattern_bytes, ih]

theorem pattern_bytes_getElem? (k : Nat) : ∀ i j, j < k →
    (pattern_bytes i k)[j]? = some ((i + j) % 256) := by
  induction k with
  | zero => intro i j hj; omega
  | succ k ih =>
    intro i j hj
    cases j with
    | zero => simp [pattern_bytes]
    | succ j =>
      simp only [pattern_bytes, List.getElem?_cons_succ]
      rw [ih (i + 1) j (by omega)]
      congr 2; omega

theorem echo_packet_length (ident : Nat) (tv : timeval) (seq_num : Int) (n ck : Nat) :
    (echo_packet ident tv seq_num n ck).length = n + 24 := by
  simp [echo_packet, echo_header_length, timeval_bytes_length, pattern_bytes_length]
  omega

theorem echo_packet_drop (ident : Nat) (tv : timeval) (seq_num : Int) (n ck : Nat) :
    (echo_packet ident tv seq_num n ck).drop (SIZEOF_ICMPHDR + SIZEOF_TIMEVAL) =
      pattern_bytes 0 n := by
  unfold echo_packet
  rw [← List.append_assoc]
  exact List.drop_left' (by simp [echo_header_length, timeval_bytes_length, SIZEOF_ICMPHDR,
    SIZEOF_TIMEVAL])

theorem calculate_checksum_lt (buf : List Nat) : calculate_checksum buf < 65536 :=
  Nat.mod_lt _ (by norm_num)

theorem load16_checksum (ident : Nat) (seq_num : Int) (ck : Nat) (rest : List Nat)
    (h : ck < 65536) : load16 (echo_header ident seq_num ck ++ rest) 2 = some ck := by
  simp only [load16, echo_header, List.cons_append, List.getElem?_cons_succ,
    List.getElem?_cons_zero, Option.some_bind, Option.some.injEq]
  omega

theorem verify_checksum_echo_packet (ident : Nat) (tv : timeval) (seq_num : Int) (n : Nat) :
    verify_checksum (echo_packet ident tv seq_num n
      (calculate_checksum (echo_packet ident tv seq_num n 0))) = some true := by
  have hlt := calculate_checksum_lt (echo_packet ident tv seq_num n 0)
  unfold verify_checksum
  rw [echo_packet, store16_checksum, load16_checksum _ _ _ _ hlt]
  simp [echo_packet]

/-- C1: for every identifier, clock value and sequence number (in particular every sequence
number in 0..65535 and every 16-bit identifier) and every packet size with
24 <= size <= 65536, odd sizes included, `prepare_icmp_packet` completes and
`verify_checksum` applied to the packet it has just built returns true. -/
theorem prepared_packet_passes_verify_checksum (ident : Nat) (tv : timeval)
    (seq_num packet_size : Int) (h1 : 24 ≤ packet_size) (h2 : packet_size ≤ 65536) :
    (prepare_icmp_packet ident tv seq_num packet_size).bind verify_checksum = some true := by
  obtain ⟨m, rfl⟩ : ∃ m : Nat, packet_size = (m : Int) + 24 :=
    ⟨(packet_size - 24).toNat, by omega⟩
  rw [prepare_icmp_packet_eq ident tv seq_num m h2, Option.some_bind,
    verify_checksum_echo_packet]

/-- C1 at identifier 0x1234, sequence 7 and the odd size 65. -/
theorem prepared_packet_passes_verify_checksum_witness :
    (24 : Int) ≤ 65 ∧ (65 : Int) ≤ 65536 ∧
    (prepare_icmp_packet 4660 ⟨1700000000, 250000⟩ 7 65).bind verify_checksum = some true :=
  ⟨by decide, by decide,
    prepared_packet_passes_verify_checksum 4660 ⟨1700000000, 250000⟩ 7 65 (by decide) (by decide)⟩

theorem xor_pow_ne (b k : Nat) : b ^^^ 2 ^ k ≠ b := by
  intro h
  have h0 : b ^^^ 2 ^ k = b ^^^ 0 := by simpa using h
  have := Nat.xor_right_injective h0
  exact absurd this (by positivity)

/-- C2: for every packet built by `prepare_icmp_packet` with 24 <= size <= 65536,
`verify_packet_integrity` called with `data_size = size - 8` returns true, and inverting any
single bit `k < 8` of any byte at an offset `pos` in `[24, size)`, that is of the payload
after the 16-byte timestamp, makes it return false. -/
theorem prepared_packet_integrity_and_bit_flip (ident : Nat) (tv : timeval)
    (seq_num packet_size : Int) (h1 : 24 ≤ packet_size) (h2 : packet_size ≤ 65536) :
    ∃ pkt, prepare_icmp_packet ident tv seq_num packet_size = some pkt ∧
      verify_packet_integrity pkt (packet_size - 8) = some true ∧
      ∀ pos k : Nat, 24 ≤ pos → (pos : Int) < packet_size → k < 8 →
        verify_packet_integrity (flip_bit pkt pos k) (packet_size - 8) = some false := by
  obtain ⟨m, rfl⟩ : ∃ m : Nat, packet_size = (m : Int) + 24 :=
    ⟨(packet_size - 24).toNat, by omega⟩
  have hb : (((m : Int) + 24 - 8 - (SIZEOF_TIMEVAL : Int)) % 2 ^ 64).toNat = 0 + m := by
    simp only [SIZEOF_TIMEVAL]; omega
  refine ⟨_, prepare_icmp_packet_eq ident tv seq_num m h2, ?_, ?_⟩
  · unfold verify_packet_integrity
    rw [hb, echo_packet_drop]
    exact verify_loop_pattern m 0
  · intro pos k hp1 hp2 _
    obtain ⟨j, rfl⟩ : ∃ j, pos = 24 + j := ⟨pos - 24, by omega⟩
    have hj : j < m := by omega
    unfold verify_packet_integrity flip_bit
    rw [hb, List.drop_set, if_neg (by simp [SIZEOF_ICMPHDR, SIZEOF_TIMEVAL]), echo_packet_drop]
    have hget : (echo_packet ident tv seq_num m
        (calculate_checksum (echo_packet ident tv seq_num m 0))).getD (24 + j) 0 = (0 + j) % 256 := by
      rw [List.getD_eq_getElem?_getD]
      have : (echo_packet ident tv seq_num m
          (calculate_checksum (echo_packet ident tv seq_num m 0)))[24 + j]? =
          (pattern_bytes 0 m)[j]? := by
        rw [← echo_packet_drop ident tv seq_num m
          (calculate_checksum (echo_packet ident tv seq_num m 0)), List.getElem?_drop]
        rfl
      rw [this, pattern_bytes_getElem? m 0 j hj]
      rfl
    rw [hget, show 24 + j - (SIZEOF_ICMPHDR + SIZEOF_TIMEVAL) = j by
      simp [SIZEOF_ICMPHDR, SIZEOF_TIMEVAL]]
    exact verify_loop_pattern_set m 0 j _ hj (xor_pow_ne _ _)

/-- C2 at identifier 77, sequence 0, size 32: the packet built is accepted, and with bit 7
of the byte at offset 27 inverted it is rejected. -/
theorem prepared_packet_integrity_and_bit_flip_witness :
    (24 : Int) ≤ 32 ∧ (32 : Int) ≤ 65536 ∧
    ∃ pkt, prepare_icmp_packet 77 ⟨10, 0⟩ 0 32 = some pkt ∧
      verify_packet_integrity pkt (32 - 8) = some true ∧
      verify_packet_integrity (flip_bit pkt 27 7) (32 - 8) = some false :=
  ⟨by decide, by decide,
    (prepared_packet_integrity_and_bit_flip 77 ⟨10, 0⟩ 0 32 (by decide) (by decide)).imp
      fun _ h => ⟨h.1, h.2.1, h.2.2 27 7 (by decide) (by decide) (by decide)⟩⟩

/-- C4: for every sequence number in 0..65535, 16-bit identifier and size with
24 <= size <= 65536, the packet written by `prepare_icmp_packet` has exactly `size` bytes,
type `ICMP_ECHO` (8), code 0, the given identifier and sequence number in the header, and at
offset `24 + i`, for every `i < size - 24`, the byte `i mod 256`. -/
theorem prepared_packet_layout (ident : Nat) (tv : timeval) (seq_num packet_size : Int)
    (hs1 : 0 ≤ seq_num) (hs2 : seq_num ≤ 65535) (hid : ident < 65536)
    (h1 : 24 ≤ packet_size) (h2 : packet_size ≤ 65536) :
    ∃ pkt, prepare_icmp_packet ident tv seq_num packet_size = some pkt ∧
      (pkt.length : Int) = packet_size ∧
      pkt[0]? = some ICMP_ECHO ∧ pkt[1]? = some 0 ∧
      load16 pkt 4 = some ident ∧ load16 pkt 6 = some seq_num.toNat ∧
      ∀ i : Nat, (i : Int) < packet_size - 24 → pkt[24 + i]? = some (i % 256) := by
  obtain ⟨m, rfl⟩ : ∃ m : Nat, packet_size = (m : Int) + 24 :=
    ⟨(packet_size - 24).toNat, by omega⟩
  refine ⟨_, prepare_icmp_packet_eq ident tv seq_num m h2, ?_, ?_, ?_, ?_, ?_, ?_⟩
  · rw [echo_packet_length]; push_cast; rfl
  · rfl
  · rfl
  · simp only [load16, echo_packet, echo_header, List.cons_append, List.getElem?_cons_succ,
      List.getElem?_cons_zero, Option.some_bind, Option.some.injEq]
    omega
  · simp only [load16, echo_packet, echo_header, List.cons_append, List.getElem?_cons_succ,
      List.getElem?_cons_zero, Option.some_bind, Option.some.injEq]
    omega
  · intro i hi
    have hi : i < m := by omega
    rw [show 24 + i = (SIZEOF_ICMPHDR + SIZEOF_TIMEVAL) + i from rfl, ← List.getElem?_drop,
      echo_packet_drop, pattern_bytes_getElem? m 0 i hi, Nat.zero_add]

/-- C4 at identifier 0x1234, sequence 7, size 65. -/
theorem prepared_packet_layout_witness :
    ((0 : Int) ≤ 7 ∧ (7 : Int) ≤ 65535 ∧ 4660 < 65536 ∧ (24 : Int) ≤ 65 ∧ (65 : Int) ≤ 65536) ∧
    ∃ pkt, prepare_icmp_packet 4660 ⟨1700000000, 250000⟩ 7 65 = some pkt ∧
      (pkt.length : Int) = 65 ∧
      pkt[0]? = some ICMP_ECHO ∧ pkt[1]? = some 0 ∧
      load16 pkt 4 = some 4660 ∧ load16 pkt 6 = some (7 : Int).toNat ∧
      ∀ i : Nat, (i : Int) < 65 - 24 → pkt[24 + i]? = some (i % 256) :=
  ⟨by decide, prepared_packet_layout 4660 ⟨1700000000, 250000⟩ 7 65 (by decide) (by decide)
    (by decide) (by decide) (by decide)⟩

/-! ## Checksum -/

theorem buffer_words_sum_le : ∀ buf : List Nat, (∀ b ∈ buf, b < 256) →
    (buffer_words buf).sum ≤ 65535 * ((buf.length + 1) / 2)
  | [], _ => by simp [buffer_words]
  | [b0], h => by
    have := h b0 (by simp)
    simp [buffer_words]; omega
  | b0 :: b1 :: rest, h => by
    have h0 := h b0 (by simp)
    have h1 := h b1 (by simp)
    have ih := buffer_words_sum_le rest (fun b hb => h b (by simp [hb]))
    simp only [buffer_words, List.sum_cons, List.length_cons]
    omega

theorem checksum_sum_eq : ∀ (buf : List Nat) (acc : Nat), (∀ b ∈ buf, b < 256) →
    acc + 65535 * ((buf.length + 1) / 2) < 2 ^ 64 →
    checksum_sum acc buf = acc + (buffer_words buf).sum
  | [], acc, _, _ => by simp [checksum_sum, buffer_words]
  | [b0], acc, h, hb => by
    have := h b0 (by simp)
    simp only [checksum_sum, buffer_words, List.sum_cons, List.sum_nil, List.length_cons,
      List.length_nil] at hb ⊢
    omega
  | b0 :: b1 :: rest, acc, h, hb => by
    have h0 := h b0 (by simp)
    have h1 := h b1 (by simp)
    simp only [List.length_cons] at hb
    have hmod : (acc + (b0 + 256 * b1)) % 2 ^ 64 = acc + (b0 + 256 * b1) := by omega
    simp only [checksum_sum, buffer_words, List.sum_cons, hmod]
    rw [checksum_sum_eq rest _ (fun b hb => h b (by simp [hb])) (by omega)]
    omega

theorem end_around_fold_of_lt (s : Nat) (h : s < 2 ^ 16) : end_around_fold s = s := by
  rw [end_around_fold, dif_pos h]

theorem end_around_fold_of_ge (s : Nat) (h : 2 ^ 16 ≤ s) :
    end_around_fold s = end_around_fold (s / 2 ^ 16 + s % 2 ^ 16) := by
  rw [end_around_fold, dif_neg (by omega)]

theorem checksum_fold_mod (s : Nat) (hs : s ≤ 65535 * 32768) :
    checksum_fold s % 2 ^ 16 = end_around_fold s ∧ checksum_fold s < 2 ^ 17 := by
  unfold checksum_fold
  simp only [Nat.shiftRight_eq_div_pow, show (0xFFFF : Nat) = 2 ^ 16 - 1 from rfl,
    Nat.and_pow_two_sub_one_eq_mod]
  have hdm : s = 2 ^ 16 * (s / 2 ^ 16) + s % 2 ^ 16 := (Nat.div_add_mod s (2 ^ 16)).symm
  have hb : s % 2 ^ 16 < 2 ^ 16 := Nat.mod_lt _ (by norm_num)
  by_cases h1 : s < 2 ^ 16
  · rw [end_around_fold_of_lt s h1]
    generalize s / 2 ^ 16 = a at hdm ⊢
    generalize s % 2 ^ 16 = b at hdm hb ⊢
    omega
  · rw [end_around_fold_of_ge s (by omega)]
    generalize s / 2 ^ 16 = a at hdm ⊢
    generalize s % 2 ^ 16 = b at hdm hb ⊢
    have ha : a ≤ 32767 := by omega
    have ht : (a + b) % 2 ^ 64 = a + b := by omega
    rw [ht]
    have he : (a + b) / 2 ^ 16 ≤ 1 := by omega
    have hu : (a + b + (a + b) / 2 ^ 16) % 2 ^ 64 = a + b + (a + b) / 2 ^ 16 := by omega
    rw [hu]
    by_cases h2 : a + b < 2 ^ 16
    · rw [end_around_fold_of_lt _ h2]
      omega
    · rw [end_around_fold_of_ge _ (by omega), end_around_fold_of_lt _ (by omega)]
      omega

theorem xor_ffff (x : Nat) (hx : x < 2 ^ 16) : x ^^^ 0xFFFF = 0xFFFF - x := by
  have h := BitVec.toNat_not (x := BitVec.ofNat 16 x)
  rw [BitVec.not_def, BitVec.toNat_xor, BitVec.toNat_allOnes, BitVec.toNat_ofNat,
    Nat.mod_eq_of_lt hx] at h
  rw [Nat.xor_comm]
  exact h

/-- C5, amended: for every buffer of at most 65536 bytes, `calculate_checksum` (the same
routine in `enhanced_ping.c` and `ping_sender.c`) returns the standard Internet checksum,
the 16-bit complement of the ones'-complement sum of the buffer's 16-bit words, a trailing
odd byte counting as one more word. After the two folding statements the variable `sum`
is below `2^17` and its low 16 bits, which are what the cast to `unsigned short` keeps, are
the completely folded ones'-complement sum; `sum` itself need not fit in 16 bits. -/
theorem calculate_checksum_is_internet_checksum (buf : List Nat)
    (hlen : buf.length ≤ 65536) (hbytes : ∀ b ∈ buf, b < 256) :
    calculate_checksum buf = internet_checksum buf ∧
    checksum_fold (checksum_sum 0 buf) % 2 ^ 16 = ones_complement_sum buf ∧
    checksum_fold (checksum_sum 0 buf) < 2 ^ 17 := by
  have hsum := checksum_sum_eq buf 0 hbytes (by omega)
  have hle := buffer_words_sum_le buf hbytes
  rw [Nat.zero_add] at hsum
  have hfold := checksum_fold_mod (buffer_words buf).sum (by omega)
  have hlt : ones_complement_sum buf < 2 ^ 16 := by
    unfold ones_complement_sum
    rw [← hfold.1]
    exact Nat.mod_lt _ (by norm_num)
  refine ⟨?_, ?_, ?_⟩
  · unfold calculate_checksum internet_checksum
    rw [xor_ffff _ hlt, hsum]
    unfold ones_complement_sum at hlt ⊢
    omega
  · rw [hsum]; exact hfold.1
  · rw [hsum]; exact hfold.2

/-- C5, amended, at the words `0x1234, 0x5678`. -/
theorem calculate_checksum_is_internet_checksum_witness :
    [0x34, 0x12, 0x78, 0x56].length ≤ 65536 ∧
    (∀ b ∈ [0x34, 0x12, 0x78, 0x56], b < 256) ∧
    (calculate_checksum [0x34, 0x12, 0x78, 0x56] =
        internet_checksum [0x34, 0x12, 0x78, 0x56] ∧
      checksum_fold (checksum_sum 0 [0x34, 0x12, 0x78, 0x56]) % 2 ^ 16 =
        ones_complement_sum [0x34, 0x12, 0x78, 0x56] ∧
      checksum_fold (checksum_sum 0 [0x34, 0x12, 0x78, 0x56]) < 2 ^ 17) :=
  ⟨by decide, by decide,
    calculate_checksum_is_internet_checksum [0x34, 0x12, 0x78, 0x56] (by decide) (by decide)⟩

/-- C5 as stated fails on the 6-byte buffer of the words `0xFFFF, 0xFFFF, 0x0001`: the
summation loop leaves `sum = 0x1FFFF`, the first folding statement gives
`1 + 0xFFFF = 0x10000`, the second `0x10000 + 1 = 0x10001`, which does not fit in 16 bits
when `~sum` is taken. The cast keeps `0x0001`, and the returned checksum `0xFFFE` is the
standard one. -/
theorem folded_sum_exceeds_16_bits :
    checksum_sum 0 [0xFF, 0xFF, 0xFF, 0xFF, 0x01, 0x00] = 0x1FFFF ∧
    checksum_fold (checksum_sum 0 [0xFF, 0xFF, 0xFF, 0xFF, 0x01, 0x00]) = 0x10001 ∧
    ¬ checksum_fold (checksum_sum 0 [0xFF, 0xFF, 0xFF, 0xFF, 0x01, 0x00]) < 2 ^ 16 ∧
    calculate_checksum [0xFF, 0xFF, 0xFF, 0xFF, 0x01, 0x00] = 0xFFFE := by
  decide

/-! ## History ledger -/

theorem find_scan_spec (seq_num : Int) : ∀ (n : Nat) (h : List packet_history_t) (i : Nat),
    find_scan seq_num n h = some i →
    i < n ∧ ∃ r, h[i]? = some r ∧ r.seq_num = seq_num := by
  intro n
  induction n with
  | zero => intro h i hf; simp [find_scan] at hf
  | succ n ih =>
    intro h i hf
    cases h with
    | nil => simp [find_scan] at hf
    | cons r rest =>
      simp only [find_scan] at hf
      by_cases hr : r.seq_num = seq_num
      · rw [if_pos hr] at hf
        obtain rfl : 0 = i := by simpa using hf
        exact ⟨by omega, r, by simp, hr⟩
      · rw [if_neg hr] at hf
        obtain ⟨j, hj, rfl⟩ := Option.map_eq_some'.mp hf
        obtain ⟨h1, r', h2, h3⟩ := ih rest j hj
        exact ⟨by omega, r', by simpa using h2, h3⟩

theorem update_scan_of_find (seq_num : Int) (rtt : ℚ) (c : Bool) :
    ∀ (n : Nat) (h : List packet_history_t) (i : Nat) (r : packet_history_t),
    find_scan seq_num n h = some i → h[i]? = some r →
    update_scan seq_num rtt c n h =
      (h.set i { r with received := true, rtt := rtt, corrupted := c }, decide (r.retries > 0)) := by
  intro n
  induction n with
  | zero => intro h i r hf; simp [find_scan] at hf
  | succ n ih =>
    intro h i r hf hr
    cases h with
    | nil => simp [find_scan] at hf
    | cons r0 rest =>
      simp only [find_scan] at hf
      by_cases h0 : r0.seq_num = seq_num
      · rw [if_pos h0] at hf
        obtain rfl : 0 = i := by simpa using hf
        obtain rfl : r0 = r := by simpa using hr
        simp [update_scan, h0]
      · rw [if_neg h0] at hf
        obtain ⟨j, hj, rfl⟩ := Option.map_eq_some'.mp hf
        have := ih rest j r hj (by simpa using hr)
        simp [update_scan, h0, this]

theorem find_scan_set (seq_num : Int) :
    ∀ (n : Nat) (h : List packet_history_t) (i : Nat) (r : packet_history_t),
    find_scan seq_num n h = some i → r.seq_num = seq_num →
    find_scan seq_num n (h.set i r) = some i := by
  intro n
  induction n with
  | zero => intro h i r hf; simp [find_scan] at hf
  | succ n ih =>
    intro h i r hf hr
    cases h with
    | nil => simp [find_scan] at hf
    | cons r0 rest =>
      simp only [find_scan] at hf
      by_cases h0 : r0.seq_num = seq_num
      · rw [if_pos h0] at hf
        obtain rfl : 0 = i := by simpa using hf
        simp [find_scan, hr]
      · rw [if_neg h0] at hf
        obtain ⟨j, hj, rfl⟩ := Option.map_eq_some'.mp hf
        simp [find_scan, h0, ih rest j r hj hr]

theorem update_packet_history_of_find (s : ping_state) (seq_num : Int) (rtt : ℚ) (c : Bool)
    (i : Nat) (r : packet_history_t)
    (hf : find_packet s seq_num = some i) (hr : s.packet_history[i]? = some r) :
    update_packet_history s seq_num rtt c =
      { s with
        packet_history :=
          s.packet_history.set i { r with received := true, rtt := rtt, corrupted := c }
        rereceived_count :=
          if r.retries > 0 then s.rereceived_count + 1 else s.rereceived_count } := by
  unfold update_packet_history
  rw [update_scan_of_find seq_num rtt c _ _ i r hf hr]
  simp

/-- C3, amended: `update_packet_history` is not idempotent. For every ledger and every
tracked sequence number, found by `find_packet` in slot `i` holding `r`, the first call sets
`received`, `rtt`, `corrupted` of that slot to `true`, `rtt1`, `c1`; a second call for the
same sequence keeps `received = true` and overwrites `rtt` and `corrupted` with its own
arguments `rtt2`, `c2`; `rereceived_count` is incremented by each of the two calls when
`r.retries > 0` and by neither otherwise. -/
theorem update_packet_history_twice (s : ping_state) (seq_num : Int) (rtt1 rtt2 : ℚ)
    (c1 c2 : Bool) (i : Nat) (r : packet_history_t)
    (hf : find_packet s seq_num = some i) (hr : s.packet_history[i]? = some r) :
    (update_packet_history s seq_num rtt1 c1).packet_history[i]? =
        some { r with received := true, rtt := rtt1, corrupted := c1 } ∧
    (update_packet_history (update_packet_history s seq_num rtt1 c1) seq_num rtt2 c2).packet_history[i]? =
        some { r with received := true, rtt := rtt2, corrupted := c2 } ∧
    (update_packet_history (update_packet_history s seq_num rtt1 c1) seq_num rtt2 c2).rereceived_count =
        (if r.retries > 0 then s.rereceived_count + 2 else s.rereceived_count) := by
  have hi : i < s.packet_history.length := by
    by_contra hcon
    rw [List.getElem?_eq_none (by omega)] at hr
    exact absurd hr (by simp)
  have h1 := update_packet_history_of_find s seq_num rtt1 c1 i r hf hr
  have hf2 : find_packet (update_packet_history s seq_num rtt1 c1) seq_num = some i := by
    rw [h1]
    exact find_scan_set seq_num _ _ i _ hf (find_scan_spec seq_num _ _ i hf |>.2 |> fun ⟨r', h2, h3⟩ => by
      rw [hr] at h2; cases h2; exact h3)
  have hr2 : (update_packet_history s seq_num rtt1 c1).packet_history[i]? =
      some { r with received := true, rtt := rtt1, corrupted := c1 } := by
    rw [h1]; simp [List.getElem?_set, hi]
  have h2 := update_packet_history_of_find _ seq_num rtt2 c2 i _ hf2 hr2
  refine ⟨hr2, ?_, ?_⟩
  · rw [h2]; simp [List.getElem?_set, hi, h1]
  · rw [h2, h1]
    by_cases hret : r.retries > 0 <;> simp [hret]
    omega

set_option maxRecDepth 100000 in
/-- C3 at `retried_ledger`, sequence 0 in slot 0 with one retry. -/
theorem update_packet_history_twice_witness :
    find_packet retried_ledger 0 = some 0 ∧
    retried_ledger.packet_history[0]? =
      some { seq_num := 0, sent_time := ⟨100, 0⟩, retries := 1, received := false, rtt := 0,
             corrupted := false } ∧
    ((update_packet_history retried_ledger 0 10 false).packet_history[0]? =
        some { seq_num := 0, sent_time := ⟨100, 0⟩, retries := 1, received := true, rtt := 10,
               corrupted := false } ∧
    (update_packet_history (update_packet_history retried_ledger 0 10 false) 0 20
        true).packet_history[0]? =
        some { seq_num := 0, sent_time := ⟨100, 0⟩, retries := 1, received := true, rtt := 20,
               corrupted := true } ∧
    (update_packet_history (update_packet_history retried_ledger 0 10 false) 0 20
        true).rereceived_count =
        (if (1 : Int) > 0 then retried_ledger.rereceived_count + 2
          else retried_ledger.rereceived_count)) :=
  ⟨by decide, by decide,
    update_packet_history_twice retried_ledger 0 10 20 false true 0
      { seq_num := 0, sent_time := ⟨100, 0⟩, retries := 1, received := false, rtt := 0,
        corrupted := false } (by decide) (by decide)⟩

set_option maxRecDepth 100000 in
/-- C3 as stated fails on `retried_ledger` (sequence 0 tracked in slot 0, retried once):
after `update_packet_history(0, 10, false)` the record holds `received = true`, `rtt = 10`,
`corrupted = false` and `rereceived_count` is 1; after a second call
`update_packet_history(0, 20, true)` the same record holds `rtt = 20`, `corrupted = true`
and `rereceived_count` is 2. -/
theorem update_packet_history_second_call_overwrites :
    find_packet retried_ledger 0 = some 0 ∧
    retried_ledger.rereceived_count = 0 ∧
    ((update_packet_history retried_ledger 0 10 false).packet_history[0]?).map
        (fun r => (r.received, r.rtt, r.corrupted)) = some (true, 10, false) ∧
    (update_packet_history retried_ledger 0 10 false).rereceived_count = 1 ∧
    ((update_packet_history (update_packet_history retried_ledger 0 10 false) 0 20
        true).packet_history[0]?).map
        (fun r => (r.received, r.rtt, r.corrupted)) = some (true, 20, true) ∧
    (update_packet_history (update_packet_history retried_ledger 0 10 false) 0 20
        true).rereceived_count = 2 := by
  decide

theorem add_packet_to_history_total_le (s : ping_state) (seq_num : Int) (now : timeval)
    (h : s.total_packets ≤ MAX_HISTORY) :
    (add_packet_to_history s seq_num now).total_packets ≤ MAX_HISTORY := by
  unfold add_packet_to_history
  split
  · simp only; omega
  · exact h

theorem apply_op_total_le (s : ping_state) (op : ledger_op)
    (h : s.total_packets ≤ MAX_HISTORY) : (apply_op s op).total_packets ≤ MAX_HISTORY := by
  cases op with
  | add seq_num now => exact add_packet_to_history_total_le s seq_num now h
  | update seq_num rtt corrupted => exact h
  | retry seq_num =>
    simp only [apply_op, increment_retries]
    split <;> exact h

theorem apply_ops_total_le (ops : List ledger_op) : ∀ s : ping_state,
    s.total_packets ≤ MAX_HISTORY → (apply_ops s ops).total_packets ≤ MAX_HISTORY := by
  induction ops with
  | nil => intro s h; exact h
  | cons op ops ih =>
    intro s h
    exact ih (apply_op s op) (apply_op_total_le s op h)

theorem take_set_self (l : List packet_history_t) (n : Nat) (a : packet_history_t) :
    (l.set n a).take n = l.take n :=
  List.ext_getElem? fun i => by
    rw [List.getElem?_take, List.getElem?_take]
    split
    · rw [List.getElem?_set_ne (by omega)]
    · rfl

theorem tracked_add (s : ping_state) (seq_num : Int) (now : timeval) (r : packet_history_t)
    (hlt : s.total_packets < MAX_HISTORY) (h0 : 0 ≤ s.total_packets)
    (hr : s.packet_history[s.total_packets.toNat]? = some r) :
    tracked (add_packet_to_history s seq_num now) =
      tracked s ++ [{ r with seq_num := seq_num, sent_time := now, retries := 0,
                             received := false, corrupted := false }] := by
  have hi : s.total_packets.toNat < s.packet_history.length := by
    by_contra hcon
    rw [List.getElem?_eq_none (by omega)] at hr
    exact absurd hr (by simp)
  have hn : (s.total_packets + 1).toNat = s.total_packets.toNat + 1 := by omega
  simp only [tracked, add_packet_to_history, if_pos hlt, update_slot, hr, hn]
  rw [List.take_succ, take_set_self]
  simp [hi]

theorem ledger_ok_initial_state : ledger_ok initial_state :=
  ⟨List.length_replicate _ _, by decide, by decide⟩

/-- C6: on a ledger with its `MAX_HISTORY = 1000` slots, `add_packet_to_history` appends
exactly one record (the given sequence number and send time, `retries = 0`,
`received = false`, `corrupted = false`) after the unchanged earlier records when
`total_packets < 1000`, and changes nothing when `total_packets = 1000`; `total_packets`
stays at most 1000 after every sequence of ledger operations; and the head of the probe
loop increments `original_send_count` all the same, so for the untracked probe too. -/
theorem add_packet_to_history_bounded (s : ping_state) (seq_num : Int) (now : timeval)
    (hok : ledger_ok s) :
    (s.total_packets < MAX_HISTORY →
      (add_packet_to_history s seq_num now).total_packets = s.total_packets + 1 ∧
      ∃ r, tracked (add_packet_to_history s seq_num now) = tracked s ++ [r] ∧
        r.seq_num = seq_num ∧ r.sent_time = now ∧ r.retries = 0 ∧ r.received = false ∧
        r.corrupted = false) ∧
    (s.total_packets = MAX_HISTORY →
      add_packet_to_history s seq_num now = s ∧
      begin_probe s seq_num now =
        { s with original_send_count := s.original_send_count + 1 }) ∧
    (∀ ops : List ledger_op, (apply_ops s ops).total_packets ≤ MAX_HISTORY) ∧
    (begin_probe s seq_num now).original_send_count = s.original_send_count + 1 := by
  obtain ⟨hlen, h0, hle⟩ := hok
  refine ⟨?_, ?_, fun ops => apply_ops_total_le ops s hle, ?_⟩
  · intro hlt
    have hi : s.total_packets.toNat < s.packet_history.length := by
      rw [hlen]; omega
    have hr : s.packet_history[s.total_packets.toNat]? =
        some (s.packet_history.get ⟨s.total_packets.toNat, hi⟩) := by
      rw [List.getElem?_eq_getElem hi]; rfl
    refine ⟨by simp [add_packet_to_history, hlt], _,
      tracked_add s seq_num now _ hlt h0 hr, rfl, rfl, rfl, rfl, rfl⟩
  · intro hfull
    have hnot : ¬ s.total_packets < MAX_HISTORY := by omega
    simp [begin_probe, add_packet_to_history, hnot]
  · unfold begin_probe add_packet_to_history
    split <;> rfl

/-- The ledger with all `MAX_HISTORY` slots in use. -/
theorem ledger_ok_full : ledger_ok { initial_state with total_packets := 1000 } :=
  ⟨List.length_replicate _ _, by decide, by decide⟩

/-- C6 at the ledger the program starts with (one record is appended) and at a ledger with
all 1000 slots in use (nothing changes but `original_send_count`). -/
theorem add_packet_to_history_bounded_witness :
    ledger_ok initial_state ∧
    ledger_ok { initial_state with total_packets := 1000 } ∧
    ((add_packet_to_history initial_state 0 ⟨100, 0⟩).total_packets =
        initial_state.total_packets + 1 ∧
      ∃ r, tracked (add_packet_to_history initial_state 0 ⟨100, 0⟩) =
          tracked initial_state ++ [r] ∧
        r.seq_num = 0 ∧ r.sent_time = ⟨100, 0⟩ ∧ r.retries = 0 ∧ r.received = false ∧
        r.corrupted = false) ∧
    (add_packet_to_history { initial_state with total_packets := 1000 } 1000 ⟨100, 0⟩ =
        { initial_state with total_packets := 1000 } ∧
      begin_probe { initial_state with total_packets := 1000 } 1000 ⟨100, 0⟩ =
        { ({ initial_state with total_packets := 1000 } : ping_state) with
          original_send_count :=
            ({ initial_state with total_packets := 1000 } : ping_state).original_send_count +
              1 }) :=
  ⟨ledger_ok_initial_state, ledger_ok_full,
    (add_packet_to_history_bounded initial_state 0 ⟨100, 0⟩ ledger_ok_initial_state).1
      (by decide),
    (add_packet_to_history_bounded { initial_state with total_packets := 1000 } 1000 ⟨100, 0⟩
      ledger_ok_full).2.1 rfl⟩

/-! ## Statistics: the loss percentage -/

theorem to_int32_of_range (x : Int) (h1 : -(2 ^ 31) ≤ x) (h2 : x < 2 ^ 31) : to_int32 x = x := by
  unfold to_int32
  omega

/-- C7: for all counter values whose `int` difference `original_send_count - recv_count`
is representable (so for all non-negative counters), the loss percentage reported by
`print_statistics` is `(original_send_count - recv_count) * 100 / original_send_count` when
`original_send_count > 0`, and is 0, with no division performed, when
`original_send_count = 0`. -/
theorem loss_percentage_formula (s : ping_state)
    (h1 : -(2 ^ 31) ≤ s.original_send_count - s.recv_count)
    (h2 : s.original_send_count - s.recv_count < 2 ^ 31) :
    (0 < s.original_send_count →
      (print_statistics s).loss =
        some (((s.original_send_count - s.recv_count : Int) : ℚ) * 100 /
          (s.original_send_count : ℚ))) ∧
    (s.original_send_count = 0 → (print_statistics s).loss = some 0) := by
  constructor
  · intro hpos
    have hne : s.original_send_count ≠ 0 := by omega
    have hq : (s.original_send_count : ℚ) ≠ 0 := by exact_mod_cast hne
    simp only [print_statistics, loss_percentage, if_pos hne, fdiv, if_neg hq,
      to_int32_of_range _ h1 h2]
  · intro hz
    simp [print_statistics, loss_percentage, hz]

/-- C7 at 3 probes sent and 2 replies, and at no probe sent. -/
theorem loss_percentage_formula_witness :
    (-(2 ^ 31) ≤ ({ initial_state with original_send_count := 3, recv_count := 2 } :
        ping_state).original_send_count -
      ({ initial_state with original_send_count := 3, recv_count := 2 } :
        ping_state).recv_count) ∧
    (print_statistics { initial_state with original_send_count := 3, recv_count := 2 }).loss =
      some (((3 - 2 : Int) : ℚ) * 100 / ((3 : Int) : ℚ)) ∧
    (print_statistics initial_state).loss = some 0 :=
  ⟨by decide,
    (loss_percentage_formula { initial_state with original_send_count := 3, recv_count := 2 }
      (by decide) (by decide)).1 (by decide),
    (loss_percentage_formula initial_state (by decide) (by decide)).2 rfl⟩

/-! ## Pacing policy -/

/-- C9: `get_ping_interval` returns 1000 in standard mode, 200 in aggressive mode, and in
intermittent mode, for every non-negative value `r` returned by `rand()`, the value
`500 + (r mod 2500)`, which lies in `[500, 3000)`. -/
theorem get_ping_interval_values (r : Int) (hr : 0 ≤ r) :
    get_ping_interval .MODE_STANDARD r = 1000 ∧
    get_ping_interval .MODE_AGGRESSIVE r = 200 ∧
    get_ping_interval .MODE_INTERMITTENT r = 500 + r % 2500 ∧
    500 ≤ get_ping_interval .MODE_INTERMITTENT r ∧
    get_ping_interval .MODE_INTERMITTENT r < 3000 := by
  have ht : Int.tmod r 2500 = r % 2500 := Int.tmod_eq_emod hr (by norm_num)
  have hi : get_ping_interval .MODE_INTERMITTENT r = 500 + r % 2500 := by
    rw [← ht]; rfl
  refine ⟨rfl, rfl, hi, ?_, ?_⟩ <;> rw [hi] <;> omega

/-- C9 at the value 1804289383 of `rand()`. -/
theorem get_ping_interval_values_witness :
    (0 : Int) ≤ 1804289383 ∧
    (get_ping_interval .MODE_STANDARD 1804289383 = 1000 ∧
    get_ping_interval .MODE_AGGRESSIVE 1804289383 = 200 ∧
    get_ping_interval .MODE_INTERMITTENT 1804289383 = 500 + 1804289383 % 2500 ∧
    500 ≤ get_ping_interval .MODE_INTERMITTENT 1804289383 ∧
    get_ping_interval .MODE_INTERMITTENT 1804289383 < 3000) :=
  ⟨by decide, get_ping_interval_values 1804289383 (by decide)⟩

/-! ## Statistics: the RTT line -/

set_option maxRecDepth 100000 in
theorem tracked_clock_step_ledger :
    tracked clock_step_ledger =
      [{ seq_num := 0, sent_time := ⟨100, 5000⟩, retries := 0, received := true, rtt := -1,
         corrupted := false },
       { seq_num := 1, sent_time := ⟨101, 0⟩, retries := 0, received := true, rtt := 5,
         corrupted := false }] := by
  have h1 : rtt_ms ⟨100, 5000⟩ ⟨100, 4000⟩ = -1 := by norm_num [rtt_ms]
  have h2 : rtt_ms ⟨101, 0⟩ ⟨101, 5000⟩ = 5 := by norm_num [rtt_ms]
  rw [clock_step_ledger, h1, h2]
  decide

/-- C8, the code at the failing input: the ledger holds two tracked records, both received
and uncorrupted, with round-trip times -1 ms and 5 ms. `print_statistics` prints the RTT line
with min/avg/max = 5/2/5: the first value equals the sentinel `-1` that the loop uses for
"no value yet", so the second record overwrites the minimum. The minimum over the counted
records is -1. -/
theorem rtt_line_sentinel_collision :
    (tracked clock_step_ledger).map (fun r => (r.received, r.corrupted, r.rtt)) =
      [(true, false, -1), (true, false, 5)] ∧
    rtt_line clock_step_ledger = some (5, some 2, 5) := by
  constructor
  · rw [tracked_clock_step_ledger]; rfl
  · unfold rtt_line rtt_scan
    rw [tracked_clock_step_ledger]
    norm_num [List.foldl, rtt_step, fdiv, rtt_acc_init]

theorem counted_rtts_append (l : List packet_history_t) (r : packet_history_t) :
    counted_rtts (l ++ [r]) =
      counted_rtts l ++ (if (r.received && !r.corrupted) = true then [r.rtt] else []) := by
  unfold counted_rtts
  by_cases h : (r.received && !r.corrupted) = true <;> simp [List.filter_append, h]

/-- The invariant of the RTT loop after the records `l`. -/
theorem rtt_loop_invariant (l : List packet_history_t) :
    (l.foldl rtt_step rtt_acc_init).rtt_count = (counted_rtts l).length ∧
    (l.foldl rtt_step rtt_acc_init).avg_rtt = (counted_rtts l).sum ∧
    (counted_rtts l = [] →
      (l.foldl rtt_step rtt_acc_init).min_rtt = -1 ∧
      (l.foldl rtt_step rtt_acc_init).max_rtt = -1) ∧
    (counted_rtts l ≠ [] → (∀ x ∈ counted_rtts l, x ≠ -1) →
      (l.foldl rtt_step rtt_acc_init).min_rtt ∈ counted_rtts l ∧
      (l.foldl rtt_step rtt_acc_init).max_rtt ∈ counted_rtts l ∧
      ∀ x ∈ counted_rtts l,
        (l.foldl rtt_step rtt_acc_init).min_rtt ≤ x ∧
        x ≤ (l.foldl rtt_step rtt_acc_init).max_rtt) := by
  induction l using List.reverseRecOn with
  | nil => simp [counted_rtts, rtt_acc_init]
  | append_singleton l r ih =>
    obtain ⟨hcnt, havg, hempty, hfull⟩ := ih
    rw [List.foldl_append, counted_rtts_append]
    simp only [List.foldl_cons, List.foldl_nil]
    by_cases hc : (r.received && !r.corrupted) = true
    · simp only [rtt_step, hc, if_true]
      refine ⟨by simp [hcnt], by simp [havg], by simp, ?_⟩
      intro _ hne
      by_cases hnil : counted_rtts l = []
      · obtain ⟨hmin, hmax⟩ := hempty hnil
        simp [hnil, hmin, hmax]
      · have hne' : ∀ x ∈ counted_rtts l, x ≠ -1 := fun x hx => hne x (by simp [hx])
        obtain ⟨hmin, hmax, hbound⟩ := hfull hnil hne'
        have hmin1 : (l.foldl rtt_step rtt_acc_init).min_rtt ≠ -1 := hne' _ hmin
        have hmax1 : (l.foldl rtt_step rtt_acc_init).max_rtt ≠ -1 := hne' _ hmax
        simp only [hmin1, hmax1, false_or, List.mem_append, List.mem_singleton]
        refine ⟨?_, ?_, ?_⟩
        · split
          · exact Or.inr rfl
          · exact Or.inl hmin
        · split
          · exact Or.inr rfl
          · exact Or.inl hmax
        · intro x hx
          rcases hx with hx | rfl
          · obtain ⟨h1, h2⟩ := hbound x hx
            constructor
            · split
              · next hlt => exact le_of_lt (lt_of_lt_of_le hlt h1)
              · exact h1
            · split
              · next hgt => exact le_of_lt (lt_of_le_of_lt h2 hgt)
              · exact h2
          · constructor
            · split
              · exact le_refl _
              · next hlt => exact not_lt.mp hlt
            · split
              · exact le_refl _
              · next hgt => exact not_lt.mp hgt
    · simp only [rtt_step, hc, if_false, List.append_nil, Bool.false_eq_true]
      exact ⟨hcnt, havg, hempty, hfull⟩

/-- What holds of the RTT line on every ledger: it is printed exactly when some tracked
record has `received && !corrupted`; the printed average is the arithmetic mean of the
counted round-trip times; and when none of them equals the sentinel `-1`, the printed
minimum and maximum are their minimum and maximum. -/
theorem rtt_line_without_sentinel (s : ping_state) :
    (rtt_line s = none ↔ counted_rtts (tracked s) = []) ∧
    (counted_rtts (tracked s) ≠ [] →
      ∃ mn mx, rtt_line s =
          some (mn, some ((counted_rtts (tracked s)).sum / (counted_rtts (tracked s)).length),
            mx) ∧
        ((∀ x ∈ counted_rtts (tracked s), x ≠ -1) →
          mn ∈ counted_rtts (tracked s) ∧ mx ∈ counted_rtts (tracked s) ∧
          ∀ x ∈ counted_rtts (tracked s), mn ≤ x ∧ x ≤ mx)) := by
  obtain ⟨hcnt, havg, -, hfull⟩ := rtt_loop_invariant (tracked s)
  have hscan : rtt_scan s = (tracked s).foldl rtt_step rtt_acc_init := rfl
  constructor
  · unfold rtt_line
    rw [hscan]
    simp only [hcnt]
    constructor
    · intro h
      by_contra hne
      have : 0 < (counted_rtts (tracked s)).length := List.length_pos.mpr hne
      rw [if_pos (by exact_mod_cast this)] at h
      exact absurd h (by simp)
    · intro h
      simp [h]
  · intro hne
    have hpos : 0 < (counted_rtts (tracked s)).length := List.length_pos.mpr hne
    refine ⟨_, _, ?_, fun h => hfull hne h⟩
    unfold rtt_line
    rw [hscan]
    simp only [hcnt, havg, fdiv]
    rw [if_pos (by exact_mod_cast hpos), if_neg (by
      have : ((counted_rtts (tracked s)).length : ℚ) ≠ 0 := by exact_mod_cast (Nat.ne_of_gt hpos)
      simpa using this)]
    simp

/-! ## Probe engine: the matched reply -/

theorem update_scan_of_find_none (seq_num : Int) (rtt : ℚ) (c : Bool) :
    ∀ (n : Nat) (h : List packet_history_t), find_scan seq_num n h = none →
    update_scan seq_num rtt c n h = (h, false) := by
  intro n
  induction n with
  | zero => intro h _; rfl
  | succ n ih =>
    intro h hf
    cases h with
    | nil => rfl
    | cons r0 rest =>
      simp only [find_scan] at hf
      by_cases h0 : r0.seq_num = seq_num
      · rw [if_pos h0] at hf; exact absurd hf (by simp)
      · rw [if_neg h0] at hf
        have hn : find_scan seq_num n rest = none := by simpa using hf
        simp [update_scan, h0, ih rest hn]

/-- After `update_packet_history`, the record that `find_packet` locates for the sequence
number is marked received and carries the given corruption flag and round-trip time. -/
theorem update_packet_history_found (s : ping_state) (seq_num : Int) (rtt : ℚ) (c : Bool)
    (i : Nat) (hf : find_packet (update_packet_history s seq_num rtt c) seq_num = some i) :
    ∃ r, (update_packet_history s seq_num rtt c).packet_history[i]? = some r ∧
      r.received = true ∧ r.corrupted = c ∧ r.rtt = rtt := by
  cases hfind : find_packet s seq_num with
  | none =>
    have hu : update_packet_history s seq_num rtt c = s := by
      unfold update_packet_history
      rw [update_scan_of_find_none seq_num rtt c _ _ hfind]
      simp
    rw [hu, hfind] at hf
    exact absurd hf (by simp)
  | some j =>
    obtain ⟨_, r, hr, hseq⟩ := find_scan_spec seq_num _ _ j hfind
    have hj : j < s.packet_history.length := by
      by_contra hcon
      rw [List.getElem?_eq_none (by omega)] at hr
      exact absurd hr (by simp)
    have hu := update_packet_history_of_find s seq_num rtt c j r hfind hr
    have hf2 : find_packet (update_packet_history s seq_num rtt c) seq_num = some j := by
      rw [hu]
      exact find_scan_set seq_num _ _ j _ hfind hseq
    rw [hf2] at hf
    obtain rfl : j = i := by simpa using hf
    refine ⟨{ r with received := true, rtt := rtt, corrupted := c }, ?_, rfl, rfl, rfl⟩
    rw [hu]
    simp [List.getElem?_set, hj]

theorem handle_datagram_matched (ident : Nat) (seq_num : Int) (s : ping_state)
    (bytes : List Nat) (rtt : ℚ) (cv dv : Bool)
    (hmatch : is_our_reply ident seq_num (icmp_of bytes) = some true)
    (hcv : verify_checksum (icmp_of bytes) = some cv)
    (hdv : verify_packet_integrity (icmp_of bytes) (data_size_of bytes) = some dv) :
    handle_datagram ident seq_num s bytes rtt =
      some (update_packet_history
        (if (!cv || !dv) = true then
          { s with recv_count := s.recv_count + 1, corrupt_count := s.corrupt_count + 1 }
         else { s with recv_count := s.recv_count + 1 }) seq_num rtt (!cv || !dv), true) := by
  simp only [handle_datagram, hmatch, hcv, hdv, Option.some_bind, if_true]

theorem attempt_prelude_some (cfg : ping_config) (seq_num current_tries : Int) (s : ping_state)
    (tv : timeval) (h1 : 24 ≤ cfg.packet_size) (h2 : cfg.packet_size ≤ 65536) :
    ∃ s1, (if current_tries > 0 then
      (prepare_icmp_packet cfg.ident tv seq_num cfg.packet_size).map fun _ =>
        increment_retries { s with resend_count := s.resend_count + 1 } seq_num
      else some s) = some s1 ∧ s1.recv_count = s.recv_count ∧
      s1.corrupt_count = s.corrupt_count := by
  obtain ⟨m, hm⟩ : ∃ m : Nat, cfg.packet_size = (m : Int) + 24 :=
    ⟨(cfg.packet_size - 24).toNat, by omega⟩
  by_cases hct : current_tries > 0
  · rw [if_pos hct, hm, prepare_icmp_packet_eq cfg.ident tv seq_num m (by omega)]
    refine ⟨_, rfl, ?_, ?_⟩ <;>
    · unfold increment_retries
      split <;> rfl
  · rw [if_neg hct]
    exact ⟨s, rfl, rfl, rfl⟩

/-- C10: in the retry loop, when the datagram received during an attempt matches the
outstanding probe (echo reply, identifier, sequence) and `verify_checksum` and
`verify_packet_integrity` return the verdicts `cv` and `dv`, the loop ends with this
attempt (one attempt consumed, no retry wait), `recv_count` increases by exactly 1,
`corrupt_count` increases by 1 if `cv` or `dv` is false and by 0 otherwise, and the ledger
record of the sequence, where `find_packet` finds one, has `received = true` and
`corrupted = true` if and only if `cv` or `dv` is false. -/
theorem matched_reply_classification (cfg : ping_config) (env : environment) (fuel : Nat)
    (current_tries : Int) (st : run_state) (bytes : List Nat) (recv_time : timeval)
    (cv dv : Bool)
    (htries : current_tries ≤ cfg.retries)
    (hsize1 : 24 ≤ cfg.packet_size) (hsize2 : cfg.packet_size ≤ 65536)
    (hin : (env.attempts st.attempts).inbound = some (bytes, recv_time))
    (hmatch : is_our_reply cfg.ident st.seq_num (icmp_of bytes) = some true)
    (hcv : verify_checksum (icmp_of bytes) = some cv)
    (hdv : verify_packet_integrity (icmp_of bytes) (data_size_of bytes) = some dv) :
    ∃ st1, retry_loop cfg env (fuel + 1) current_tries st = some st1 ∧
      st1.attempts = st.attempts + 1 ∧ st1.sleeps = st.sleeps ∧ st1.seq_num = st.seq_num ∧
      st1.globals.recv_count = st.globals.recv_count + 1 ∧
      st1.globals.corrupt_count =
        st.globals.corrupt_count + (if cv = false ∨ dv = false then 1 else 0) ∧
      ∀ i, find_packet st1.globals st.seq_num = some i →
        ∃ r, st1.globals.packet_history[i]? = some r ∧ r.received = true ∧
          (r.corrupted = true ↔ cv = false ∨ dv = false) := by
  have hlen : bytes.length > 0 := by
    cases bytes with
    | nil => simp [is_our_reply, icmp_of] at hmatch
    | cons b t => simp
  obtain ⟨s1, hs1, hr1, hc1⟩ := attempt_prelude_some cfg st.seq_num current_tries st.globals
    (env.attempts st.attempts).prepare_time hsize1 hsize2
  have hatt : attempt cfg st.seq_num current_tries st.globals (env.attempts st.attempts) =
      handle_datagram cfg.ident st.seq_num
        (if (env.attempts st.attempts).send_ok = true then
          { s1 with send_count := s1.send_count + 1 } else s1) bytes
        (rtt_ms (env.attempts st.attempts).send_time recv_time) := by
    unfold attempt
    rw [hs1, Option.some_bind]
    simp only [hin, if_pos hlen]
  rw [handle_datagram_matched _ _ _ _ _ cv dv hmatch hcv hdv] at hatt
  have hloop : retry_loop cfg env (fuel + 1) current_tries st = some
      { st with
        globals := update_packet_history
          (if (!cv || !dv) = true then
            { (if (env.attempts st.attempts).send_ok = true then
                { s1 with send_count := s1.send_count + 1 } else s1) with
              recv_count := (if (env.attempts st.attempts).send_ok = true then
                { s1 with send_count := s1.send_count + 1 } else s1).recv_count + 1
              corrupt_count := (if (env.attempts st.attempts).send_ok = true then
                { s1 with send_count := s1.send_count + 1 } else s1).corrupt_count + 1 }
          else
            { (if (env.attempts st.attempts).send_ok = true then
                { s1 with send_count := s1.send_count + 1 } else s1) with
              recv_count := (if (env.attempts st.attempts).send_ok = true then
                { s1 with send_count := s1.send_count + 1 } else s1).recv_count + 1 })
          st.seq_num (rtt_ms (env.attempts st.attempts).send_time recv_time) (!cv || !dv)
        attempts := st.attempts + 1 } := by
    rw [retry_loop, if_pos htries, hatt]
    rfl
  refine ⟨_, hloop, rfl, rfl, rfl, ?_, ?_, ?_⟩
  · cases cv <;> cases dv <;> cases (env.attempts st.attempts).send_ok <;> simp [update_packet_history, hr1]
  · cases cv <;> cases dv <;> cases (env.attempts st.attempts).send_ok <;> simp [update_packet_history, hc1]
  · intro i hi
    obtain ⟨r, hr, hrec, hcor, _⟩ := update_packet_history_found _ _ _ _ i hi
    refine ⟨r, hr, hrec, ?_⟩
    rw [hcor]
    cases cv <;> cases dv <;> simp

/-- C10 at `corrupted_reply`: the reply matches the outstanding probe, both verdicts are
false, and the first attempt for sequence 0 ends the retry loop with the reply counted as
received and corrupted. -/
theorem matched_reply_classification_witness :
    is_our_reply sample_config.ident sample_run_state.seq_num (icmp_of corrupted_reply) =
      some true ∧
    verify_checksum (icmp_of corrupted_reply) = some false ∧
    verify_packet_integrity (icmp_of corrupted_reply) (data_size_of corrupted_reply) =
      some false ∧
    ∃ st1, retry_loop sample_config sample_environment (3 + 1) 0 sample_run_state = some st1 ∧
      st1.attempts = sample_run_state.attempts + 1 ∧ st1.sleeps = sample_run_state.sleeps ∧
      st1.seq_num = sample_run_state.seq_num ∧
      st1.globals.recv_count = sample_run_state.globals.recv_count + 1 ∧
      st1.globals.corrupt_count =
        sample_run_state.globals.corrupt_count +
          (if false = false ∨ false = false then 1 else 0) ∧
      ∀ i, find_packet st1.globals sample_run_state.seq_num = some i →
        ∃ r, st1.globals.packet_history[i]? = some r ∧ r.received = true ∧
          (r.corrupted = true ↔ false = false ∨ false = false) :=
  ⟨by decide, by decide, by decide,
    matched_reply_classification sample_config sample_environment 3 0 sample_run_state
      corrupted_reply ⟨10, 1500⟩ false false (by decide) (by decide) (by decide) rfl
      (by decide) (by decide) (by decide)⟩

/-! ## Size validation -/

theorem memcpy_overflow (src : List Nat) : ∀ (buf : List Nat) (off : Nat),
    off ≤ buf.length → buf.length < off + src.length → memcpy buf off src = none := by
  induction src with
  | nil => intro buf off h1 h2; simp at h2; omega
  | cons b src ih =>
    intro buf off h1 h2
    simp only [memcpy, store8]
    by_cases h : off < buf.length
    · rw [if_pos h, Option.some_bind]
      exact ih _ _ (by simp; omega) (by simp at h2 ⊢; omega)
    · rw [if_neg h]; rfl

/-- For every size from 16 to 23 the validation of `main` accepts the size and
`prepare_icmp_packet` writes past the end of the buffer: the copy of the 16-byte timestamp
does not fit after the 8-byte header. -/
theorem accepted_size_below_24_overflows (ident : Nat) (tv : timeval) (seq_num : Int) (m : Nat)
    (hm : m < 8) :
    packet_size_rejected ((m : Int) + 16) = false ∧
    prepare_icmp_packet ident tv seq_num ((m : Int) + 16) = none := by
  constructor
  · have h1 : ¬ (((m : Int) + 16) % 2 ^ 64).toNat < SIZEOF_ICMPHDR + 8 := by
      simp only [SIZEOF_ICMPHDR]; omega
    have h2 : ¬ ((m : Int) + 16 > MAX_PACKET_SIZE) := by
      simp only [MAX_PACKET_SIZE]; omega
    rw [packet_size_rejected, decide_eq_false h1, decide_eq_false h2]; rfl
  · have hn : ((m : Int) + 16).toNat = m + 16 := by omega
    have hz : List.replicate (m + 16) 0 =
        [0, 0, 0, 0, 0, 0, 0, 0] ++ List.replicate (m + 8) 0 := by
      rw [show m + 16 = 8 + (m + 8) by omega, List.replicate_add]; rfl
    unfold prepare_icmp_packet
    rw [hn, hz, header_stores]
    rw [memcpy_overflow (timeval_bytes tv) _ SIZEOF_ICMPHDR
      (by simp [echo_header_length, SIZEOF_ICMPHDR])
      (by simp [echo_header_length, timeval_bytes_length, SIZEOF_ICMPHDR]; omega)]
    rfl

/-- C12, the code at the failing input `-s 16`: the validation of `main` accepts the size
(15 is rejected), and `prepare_icmp_packet` on the 16-byte buffer writes past its end:
the 16-byte timestamp is copied to the offsets 8..23, and the bound of the pattern loop,
`16 - 8 - 16` in `size_t`, is `2^64 - 8`. The validation, its first comparison being made
in `size_t`, also accepts the size -1. -/
theorem validation_accepts_size_16 :
    packet_size_rejected 16 = false ∧
    prepare_icmp_packet 77 ⟨10, 0⟩ 0 16 = none ∧
    (((16 : Int) - SIZEOF_ICMPHDR - SIZEOF_TIMEVAL) % 2 ^ 64).toNat = 2 ^ 64 - 8 ∧
    packet_size_rejected 15 = true ∧
    packet_size_rejected (-1) = false := by
  refine ⟨by decide, ?_, by decide, by decide, by decide⟩
  exact (accepted_size_below_24_overflows 77 ⟨10, 0⟩ 0 0 (by decide)).2

/-! ## Short replies -/

theorem verify_packet_integrity_short (icmp : List Nat) (data_size : Int)
    (h0 : 0 ≤ data_size) (h1 : data_size < 16)
    (hlen : (icmp.length : Int) ≤ SIZEOF_ICMPHDR + data_size) :
    verify_packet_integrity icmp data_size = none := by
  have hdrop : icmp.drop (SIZEOF_ICMPHDR + SIZEOF_TIMEVAL) = [] := by
    apply List.drop_eq_nil_of_le
    simp only [SIZEOF_ICMPHDR, SIZEOF_TIMEVAL] at hlen ⊢
    omega
  have hb : 0 < ((data_size - (SIZEOF_TIMEVAL : Int)) % 2 ^ 64).toNat := by
    simp only [SIZEOF_TIMEVAL]; omega
  rw [verify_packet_integrity, hdrop, verify_loop, if_pos hb]

theorem verify_loop_defined (bound : Nat) : ∀ (rest : List Nat) (i : Nat),
    bound ≤ i + rest.length → ∃ b, verify_loop bound i rest = some b := by
  intro rest
  induction rest with
  | nil =>
    intro i h
    simp only [List.length_nil, Nat.add_zero] at h
    exact ⟨true, by rw [verify_loop, if_neg (by omega)]⟩
  | cons x rest ih =>
    intro i h
    simp only [verify_loop]
    by_cases hi : i < bound
    · rw [if_pos hi]
      by_cases hx : x ≠ i &&& 0xFF
      · rw [if_pos hx]; exact ⟨false, rfl⟩
      · rw [if_neg hx]
        exact ih (i + 1) (by simp only [List.length_cons] at h; omega)
    · rw [if_neg hi]; exact ⟨true, rfl⟩

/-- When the payload holds at least the 16-byte timestamp and `data_size` is the number of
payload bytes present, `verify_packet_integrity` ends with a verdict without reading
outside the message. -/
theorem verify_packet_integrity_defined (icmp : List Nat) (data_size : Int)
    (h16 : 16 ≤ data_size) (hlen : (icmp.length : Int) = SIZEOF_ICMPHDR + data_size) :
    ∃ b, verify_packet_integrity icmp data_size = some b := by
  unfold verify_packet_integrity
  apply verify_loop_defined
  simp only [SIZEOF_ICMPHDR, SIZEOF_TIMEVAL, List.length_drop] at hlen ⊢
  omega

/-- C16, the code at the failing input: `short_reply` is a well-formed echo reply that matches
the probe with identifier 77, sequence 0 and carries 8 payload bytes (`data_size = 8`). The
loop bound `data_size - sizeof(struct timeval)`, computed in `size_t`, is `2^64 - 8`, and
the first read of `verify_packet_integrity`, at payload offset 16, is past the 8 bytes
present: the model has no verdict. -/
theorem short_reply_read_past_payload :
    is_our_reply 77 0 (icmp_of short_reply) = some true ∧
    verify_checksum (icmp_of short_reply) = some true ∧
    data_size_of short_reply = 8 ∧
    (icmp_of short_reply).length = SIZEOF_ICMPHDR + 8 ∧
    ((data_size_of short_reply - (SIZEOF_TIMEVAL : Int)) % 2 ^ 64).toNat = 2 ^ 64 - 8 ∧
    verify_packet_integrity (icmp_of short_reply) (data_size_of short_reply) = none := by
  decide

/-! ## Sequence numbers past 16 bits -/

theorem load16_ident (ident : Nat) (seq_num : Int) (ck : Nat) (rest : List Nat) :
    load16 (echo_header ident seq_num ck ++ rest) 4 = some (ident % 2 ^ 16) := by
  simp only [load16, echo_header, List.cons_append, List.getElem?_cons_succ,
    List.getElem?_cons_zero, Option.some_bind, Option.some.injEq]
  omega

theorem load16_sequence (ident : Nat) (seq_num : Int) (ck : Nat) (rest : List Nat) :
    load16 (echo_header ident seq_num ck ++ rest) 6 = some (seq_num % 2 ^ 16).toNat := by
  simp only [load16, echo_header, List.cons_append, List.getElem?_cons_succ,
    List.getElem?_cons_zero, Option.some_bind, Option.some.injEq]
  omega

/-- The match test on any message that is an echo reply and carries the identifier and
sequence fields of the request built for `seq_num >= 0`: it succeeds exactly when
`seq_num < 65536`. -/
theorem copied_fields_match (ident : Nat) (tv : timeval) (seq_num packet_size : Int)
    (h1 : 24 ≤ packet_size) (h2 : packet_size ≤ 65536) (hs : 0 ≤ seq_num) (icmp : List Nat) :
    ∃ pkt, prepare_icmp_packet ident tv seq_num packet_size = some pkt ∧
      (icmp[0]? = some ICMP_ECHOREPLY → load16 icmp 4 = load16 pkt 4 →
        load16 icmp 6 = load16 pkt 6 →
        is_our_reply ident seq_num icmp = some (decide (seq_num < 65536))) := by
  obtain ⟨m, rfl⟩ : ∃ m : Nat, packet_size = (m : Int) + 24 :=
    ⟨(packet_size - 24).toNat, by omega⟩
  refine ⟨_, prepare_icmp_packet_eq ident tv seq_num m h2, ?_⟩
  intro h0 h4 h6
  rw [echo_packet, load16_ident] at h4
  rw [echo_packet, load16_sequence] at h6
  simp only [is_our_reply, h0, h4, h6, Option.some_bind, if_true]
  congr 1
  by_cases hlt : seq_num < 65536
  · simp only [hlt, decide_True, decide_eq_true_eq]; omega
  · simp only [hlt, decide_False, decide_eq_false_iff_not]; omega

/-- C15, the code at the failing input `seq_num = 65536`: the sequence field of the request
that `prepare_icmp_packet` builds holds 0, so does the field of the target's reply, and the
match test, which compares the 16-bit field with the `int` counter, fails. For
`seq_num = 65535` the reply is matched. -/
theorem sequence_65536_reply_not_matched :
    (prepare_icmp_packet 77 ⟨10, 0⟩ 65536 32).bind (fun pkt => load16 pkt 6) = some 0 ∧
    (answer 77 ⟨10, 0⟩ 65536 32).bind (fun p => load16 (icmp_of p.1) 6) = some 0 ∧
    (answer 77 ⟨10, 0⟩ 65536 32).bind (fun p => is_our_reply 77 65536 (icmp_of p.1)) =
      some false ∧
    (answer 77 ⟨10, 0⟩ 65535 32).bind (fun p => is_our_reply 77 65535 (icmp_of p.1)) =
      some true := by
  decide

/-! ## The waits of a run -/

theorem retry_loop_sleeps (cfg : ping_config) (env : environment) :
    ∀ (fuel : Nat) (current_tries : Int) (st st1 : run_state),
    retry_loop cfg env fuel current_tries st = some st1 →
    ∃ k, st1.sleeps = st.sleeps ++ List.replicate k (RETRY_INTERVAL * 1000) := by
  intro fuel
  induction fuel with
  | zero =>
    intro ct st st1 h
    simp only [retry_loop] at h
    split at h
    · exact absurd h (by simp)
    · obtain rfl : st = st1 := by simpa using h
      exact ⟨0, by simp⟩
  | succ fuel ih =>
    intro ct st st1 h
    simp only [retry_loop] at h
    split at h
    · obtain ⟨r, hr, h⟩ := Option.bind_eq_some.mp h
      split at h
      · obtain rfl := Option.some.inj h
        exact ⟨0, by simp⟩
      · obtain ⟨k, hk⟩ := ih _ _ _ h
        exact ⟨k + 1, by rw [hk]; simp [List.replicate_succ]⟩
    · obtain rfl : st = st1 := by simpa using h
      exact ⟨0, by simp⟩

/-- Every wait of a run is the retry back-off or the one interval fixed before the loop:
no wait depends on a value drawn during the loop. -/
theorem probe_loop_sleeps (cfg : ping_config) (env : environment) :
    ∀ (fuel : Nat) (st st1 : run_state), probe_loop cfg env fuel st = some st1 →
    ∃ waits, st1.sleeps = st.sleeps ++ waits ∧
      ∀ w ∈ waits, w = cfg.interval * 1000 ∨ w = RETRY_INTERVAL * 1000 := by
  intro fuel
  induction fuel with
  | zero => intro st st1 h; simp [probe_loop] at h
  | succ fuel ih =>
    intro st st1 h
    simp only [probe_loop] at h
    split at h
    · obtain ⟨pkt, _, h⟩ := Option.bind_eq_some.mp h
      obtain ⟨st2, hretry, h⟩ := Option.bind_eq_some.mp h
      obtain ⟨k, hk⟩ := retry_loop_sleeps cfg env _ _ _ _ hretry
      simp only at hk
      split at h
      · obtain rfl := Option.some.inj h
        exact ⟨_, hk, fun w hw => Or.inr (List.eq_of_mem_replicate hw)⟩
      · obtain ⟨waits, hw1, hw2⟩ := ih _ _ h
        simp only [hk, List.append_assoc] at hw1
        refine ⟨_, hw1, ?_⟩
        intro w hw
        simp only [List.mem_append, List.mem_singleton] at hw
        rcases hw with hw | hw | hw
        · exact Or.inr (List.eq_of_mem_replicate hw)
        · exact Or.inl hw
        · exact hw2 w hw
    · obtain rfl : st = st1 := by simpa using h
      exact ⟨[], by simp, by simp⟩

set_option maxRecDepth 100000 in
/-- C14, the code at the failing input: intermittent mode, no `-i`, three probes, every one
answered at once, `rand()` returning 100 at its first call. The interval is drawn once
before the loop, 600 ms, and both inter-probe waits are 600000 microseconds; a second draw
with the next value of `rand()`, say 200, would give 700 ms. -/
theorem intermittent_interval_drawn_once :
    startup_interval (-1) .MODE_INTERMITTENT 100 = 600 ∧
    get_ping_interval .MODE_INTERMITTENT 200 = 700 ∧
    (probe_loop
        { sample_config with
          count := 3, interval := startup_interval (-1) .MODE_INTERMITTENT 100 }
        (answering_environment sample_config) 3 initial_run_state).map
      (fun st => (st.globals.recv_count, st.sleeps)) = some (3, [600000, 600000]) := by
  decide

/-! ## Datagrams that are not the awaited reply -/

/-- What the code does with a datagram that is not the awaited reply: the pass of the
retry loop ends exactly as when nothing is received within the timeout. -/
theorem non_matching_is_timeout (cfg : ping_config) (seq_num current_tries : Int)
    (s : ping_state) (env : attempt_env) (bytes : List Nat) (recv_time : timeval)
    (hin : env.inbound = some (bytes, recv_time))
    (hno : is_our_reply cfg.ident seq_num (icmp_of bytes) = some false) :
    attempt cfg seq_num current_tries s env =
      attempt cfg seq_num current_tries s { env with inbound := none } := by
  unfold attempt
  simp only [hin, handle_datagram, hno, Option.some_bind]
  by_cases hlen : bytes.length > 0 <;> simp [hlen]

set_option maxRecDepth 100000 in
/-- C13, the code at the failing input: during the wait of the first attempt for sequence 0
a destination-unreachable message reaches the socket, then the awaited reply. With
`retries = 1` the loop uses two attempts and retransmits once (`resend_count = 1`), where
without the stray message it uses one attempt and `resend_count` stays 0. With
`retries = 0` the only attempt is used up and the probe stays unanswered
(`recv_count = 0`), where without the stray message it is answered. -/
theorem stray_packet_consumes_attempt :
    is_our_reply 77 0 (icmp_of dest_unreach) = some false ∧
    (answer 77 ⟨10, 0⟩ 0 32).bind (fun p => is_our_reply 77 0 (icmp_of p.1)) = some true ∧
    ((answer 77 ⟨10, 0⟩ 0 32).bind fun reply =>
      (retry_loop { sample_config with retries := 1 }
        (arrival_environment [(dest_unreach, ⟨10, 700⟩), reply]) 2 0 sample_run_state).map
        fun st => (st.attempts, st.globals.resend_count, st.globals.recv_count)) =
      some (2, 1, 1) ∧
    ((answer 77 ⟨10, 0⟩ 0 32).bind fun reply =>
      (retry_loop { sample_config with retries := 1 }
        (arrival_environment [reply]) 2 0 sample_run_state).map
        fun st => (st.attempts, st.globals.resend_count, st.globals.recv_count)) =
      some (1, 0, 1) ∧
    ((answer 77 ⟨10, 0⟩ 0 32).bind fun reply =>
      (retry_loop { sample_config with retries := 0 }
        (arrival_environment [(dest_unreach, ⟨10, 700⟩), reply]) 1 0 sample_run_state).map
        fun st => (st.attempts, st.globals.resend_count, st.globals.recv_count)) =
      some (1, 0, 0) ∧
    ((answer 77 ⟨10, 0⟩ 0 32).bind fun reply =>
      (retry_loop { sample_config with retries := 0 }
        (arrival_environment [reply]) 1 0 sample_run_state).map
        fun st => (st.attempts, st.globals.resend_count, st.globals.recv_count)) =
      some (1, 0, 1) := by
  decide

/-! ## The counters of a run -/

theorem unanswered_below_zero (U : Finset Nat) : unanswered_below U 0 = 0 := by
  simp [unanswered_below]

theorem unanswered_below_succ (U : Finset Nat) (k : Nat) :
    unanswered_below U (k + 1) = unanswered_below U k + (if k ∈ U then 1 else 0) := by
  unfold unanswered_below
  have hsplit : (U.filter fun u => u < k + 1) =
      (U.filter fun u => u < k) ∪ (U.filter fun u => u = k) := by
    ext u
    simp only [Finset.mem_filter, Finset.mem_union]
    constructor
    · rintro ⟨hu, hlt⟩
      by_cases h : u = k
      · exact Or.inr ⟨hu, h⟩
      · exact Or.inl ⟨hu, by omega⟩
    · rintro (⟨hu, hlt⟩ | ⟨hu, rfl⟩)
      · exact ⟨hu, by omega⟩
      · exact ⟨hu, by omega⟩
  have hdisj : Disjoint (U.filter fun u => u < k) (U.filter fun u => u = k) := by
    rw [Finset.disjoint_left]
    intro u h1 h2
    simp only [Finset.mem_filter] at h1 h2
    omega
  rw [hsplit, Finset.card_union_of_disjoint hdisj]
  congr 1
  by_cases hk : k ∈ U
  · rw [if_pos hk]
    have : (U.filter fun u => u = k) = {k} := by
      ext u
      simp only [Finset.mem_filter, Finset.mem_singleton]
      constructor
      · rintro ⟨_, rfl⟩; rfl
      · rintro rfl; exact ⟨hk, rfl⟩
    rw [this, Finset.card_singleton]
  · rw [if_neg hk]
    have : (U.filter fun u => u = k) = ∅ := by
      ext u
      simp only [Finset.mem_filter, Finset.not_mem_empty, iff_false, not_and]
      rintro hu rfl
      exact hk hu
    rw [this, Finset.card_empty]

theorem unanswered_below_all (U : Finset Nat) (n : Nat) (hU : ∀ k ∈ U, k < n) :
    unanswered_below U n = U.card := by
  unfold unanswered_below
  rw [Finset.filter_true_of_mem hU]

theorem unanswered_below_le (U : Finset Nat) : ∀ k, unanswered_below U k ≤ k := by
  intro k
  induction k with
  | zero => simp [unanswered_below_zero]
  | succ k ih =>
    rw [unanswered_below_succ]
    split <;> omega

theorem counters_update_packet_history (s : ping_state) (seq_num : Int) (rtt : ℚ) (c : Bool) :
    counters (update_packet_history s seq_num rtt c) = counters s := rfl

theorem counters_increment_retries (s : ping_state) (seq_num : Int) :
    counters (increment_retries s seq_num) = counters s := by
  unfold increment_retries
  split <;> rfl

theorem counters_add_packet_to_history (s : ping_state) (seq_num : Int) (now : timeval) :
    counters (add_packet_to_history s seq_num now) = counters s := by
  unfold add_packet_to_history
  split <;> rfl

theorem counters_begin_probe (s : ping_state) (seq_num : Int) (now : timeval) :
    counters (begin_probe s seq_num now) =
      (s.original_send_count + 1, s.send_count, s.resend_count, s.recv_count) := by
  have h := counters_add_packet_to_history s seq_num now
  simp only [counters, Prod.mk.injEq] at h
  simp only [begin_probe, counters, Prod.mk.injEq]
  exact ⟨by rw [h.1], h.2.1, h.2.2.1, h.2.2.2⟩

theorem attempt_prelude_eq (cfg : ping_config) (seq_num current_tries : Int) (s : ping_state)
    (tv : timeval) (h1 : 24 ≤ cfg.packet_size) (h2 : cfg.packet_size ≤ 65536) :
    (if current_tries > 0 then
      (prepare_icmp_packet cfg.ident tv seq_num cfg.packet_size).map fun _ =>
        increment_retries { s with resend_count := s.resend_count + 1 } seq_num
      else some s) =
    some (if current_tries > 0 then
      increment_retries { s with resend_count := s.resend_count + 1 } seq_num else s) := by
  obtain ⟨m, hm⟩ : ∃ m : Nat, cfg.packet_size = (m : Int) + 24 :=
    ⟨(cfg.packet_size - 24).toNat, by omega⟩
  by_cases hct : current_tries > 0
  · rw [if_pos hct, if_pos hct, hm, prepare_icmp_packet_eq cfg.ident tv seq_num m (by omega)]
    rfl
  · rw [if_neg hct, if_neg hct]

/-- A pass of the retry loop in which the transmission succeeds and nothing is received. -/
theorem attempt_timeout (cfg : ping_config) (seq_num current_tries : Int) (s : ping_state)
    (env : attempt_env) (h1 : 24 ≤ cfg.packet_size) (h2 : cfg.packet_size ≤ 65536)
    (hsend : env.send_ok = true) (hin : env.inbound = none) :
    ∃ s1, attempt cfg seq_num current_tries s env = some (s1, false) ∧
      counters s1 = (s.original_send_count, s.send_count + 1,
        s.resend_count + (if current_tries > 0 then 1 else 0), s.recv_count) := by
  unfold attempt
  rw [attempt_prelude_eq cfg seq_num current_tries s env.prepare_time h1 h2, Option.some_bind]
  simp only [hsend, hin, if_true]
  refine ⟨_, rfl, ?_⟩
  by_cases hct : current_tries > 0
  · have h := counters_increment_retries { s with resend_count := s.resend_count + 1 } seq_num
    simp only [counters, Prod.mk.injEq] at h
    simp only [if_pos hct, counters, Prod.mk.injEq]
    exact ⟨h.1, by rw [h.2.1], h.2.2.1, h.2.2.2⟩
  · simp only [if_neg hct, counters, add_zero]

/-- The first pass of the retry loop when the transmission succeeds and the awaited reply
is received. -/
theorem attempt_matched (cfg : ping_config) (seq_num : Int) (s : ping_state)
    (env : attempt_env) (bytes : List Nat) (recv_time : timeval) (cv dv : Bool)
    (hsend : env.send_ok = true) (hin : env.inbound = some (bytes, recv_time))
    (hmatch : is_our_reply cfg.ident seq_num (icmp_of bytes) = some true)
    (hcv : verify_checksum (icmp_of bytes) = some cv)
    (hdv : verify_packet_integrity (icmp_of bytes) (data_size_of bytes) = some dv) :
    ∃ s1, attempt cfg seq_num 0 s env = some (s1, true) ∧
      counters s1 = (s.original_send_count, s.send_count + 1, s.resend_count,
        s.recv_count + 1) := by
  have hlen : bytes.length > 0 := by
    cases bytes with
    | nil => simp [is_our_reply, icmp_of] at hmatch
    | cons b t => simp
  unfold attempt
  simp only [gt_iff_lt, lt_self_iff_false, if_false, Option.some_bind, hsend, if_true, hin,
    if_pos hlen]
  rw [handle_datagram_matched _ _ _ _ _ cv dv hmatch hcv hdv]
  refine ⟨_, rfl, ?_⟩
  rw [counters_update_packet_history]
  cases cv <;> cases dv <;> rfl

/-- The retry loop of a sequence that receives nothing: from `current_tries = ct` with `m`
passes left (`ct + m = retries + 1`) it makes `m` transmissions and ends unanswered. -/
theorem retry_loop_timeouts (cfg : ping_config) (env : environment) (r : Nat)
    (hr : cfg.retries = r) (h1 : 24 ≤ cfg.packet_size) (h2 : cfg.packet_size ≤ 65536) :
    ∀ (m fuel ct : Nat) (st : run_state), ct + m = r + 1 → m ≤ fuel →
    (∀ j < m, (env.attempts (st.attempts + j)).send_ok = true ∧
      (env.attempts (st.attempts + j)).inbound = none) →
    ∃ st1, retry_loop cfg env fuel ct st = some st1 ∧
      st1.attempts = st.attempts + m ∧ st1.seq_num = st.seq_num ∧
      st1.iterations = st.iterations ∧
      counters st1.globals =
        (st.globals.original_send_count, st.globals.send_count + m,
          st.globals.resend_count + (m - (if ct = 0 then 1 else 0) : Nat),
          st.globals.recv_count) := by
  intro m
  induction m with
  | zero =>
    intro fuel ct st hct _ _
    have hgt : ¬ ((ct : Int) ≤ cfg.retries) := by rw [hr]; omega
    refine ⟨st, ?_, rfl, rfl, rfl, ?_⟩
    · cases fuel <;> simp only [retry_loop, if_neg hgt]
    · simp [counters]
  | succ m ih =>
    intro fuel ct st hct hfuel henv
    obtain ⟨fuel, rfl⟩ : ∃ f, fuel = f + 1 := ⟨fuel - 1, by omega⟩
    have hle : (ct : Int) ≤ cfg.retries := by rw [hr]; omega
    obtain ⟨hs0, hi0⟩ := henv 0 (by omega)
    rw [Nat.add_zero] at hs0 hi0
    obtain ⟨s1, hatt, hc1⟩ := attempt_timeout cfg st.seq_num ct st.globals
      (env.attempts st.attempts) h1 h2 hs0 hi0
    rw [retry_loop, if_pos hle, hatt, Option.some_bind]
    simp only [Bool.false_or, decide_eq_true_eq]
    by_cases hlast : (ct : Int) + 1 > cfg.retries
    · rw [if_pos hlast]
      have hm : m = 0 := by rw [hr] at hlast; omega
      subst hm
      refine ⟨_, rfl, rfl, rfl, rfl, ?_⟩
      simp only [hc1, Prod.mk.injEq, true_and]
      refine ⟨by simp, ?_, trivial⟩
      by_cases h0 : ct = 0
      · simp [h0]
      · have : (ct : Int) > 0 := by omega
        simp [h0, this]
    · rw [if_neg hlast]
      obtain ⟨st1, hloop, ha, hs, hi, hc⟩ := ih fuel (ct + 1)
        { st with globals := s1, attempts := st.attempts + 1,
                  sleeps := st.sleeps ++ [RETRY_INTERVAL * 1000] }
        (by omega) (by omega)
        (fun j hj => by
          have := henv (j + 1) (by omega)
          simpa [Nat.add_assoc, Nat.add_comm 1 j] using this)
      have hcast : ((ct + 1 : Nat) : Int) = (ct : Int) + 1 := by push_cast; rfl
      rw [hcast] at hloop
      refine ⟨st1, hloop, by rw [ha]; simp only; omega, hs, hi, ?_⟩
      rw [hc]
      simp only [counters, Prod.mk.injEq] at hc1
      obtain ⟨ho, hsd, hrs, hrc⟩ := hc1
      simp only [ho, hsd, hrs, hrc, Prod.mk.injEq, true_and, if_neg (Nat.succ_ne_zero ct),
        Nat.sub_zero]
      refine ⟨by push_cast; ring, ?_, trivial⟩
      by_cases h0 : ct = 0
      · subst h0
        simp
      · have : (ct : Int) > 0 := by omega
        simp only [this, if_true, h0, if_false, Nat.sub_zero]
        push_cast; ring

/-- The retry loop of a sequence whose first transmission is answered by the awaited
reply: one transmission, then the loop ends. -/
theorem retry_loop_matched (cfg : ping_config) (env : environment) (fuel : Nat)
    (st : run_state) (bytes : List Nat) (recv_time : timeval) (cv dv : Bool)
    (hretries : 0 ≤ cfg.retries)
    (hsend : (env.attempts st.attempts).send_ok = true)
    (hin : (env.attempts st.attempts).inbound = some (bytes, recv_time))
    (hmatch : is_our_reply cfg.ident st.seq_num (icmp_of bytes) = some true)
    (hcv : verify_checksum (icmp_of bytes) = some cv)
    (hdv : verify_packet_integrity (icmp_of bytes) (data_size_of bytes) = some dv) :
    ∃ st1, retry_loop cfg env (fuel + 1) 0 st = some st1 ∧
      st1.attempts = st.attempts + 1 ∧ st1.seq_num = st.seq_num ∧
      st1.iterations = st.iterations ∧
      counters st1.globals =
        (st.globals.original_send_count, st.globals.send_count + 1,
          st.globals.resend_count, st.globals.recv_count + 1) := by
  obtain ⟨s1, hatt, hc1⟩ := attempt_matched cfg st.seq_num st.globals
    (env.attempts st.attempts) bytes recv_time cv dv hsend hin hmatch hcv hdv
  rw [retry_loop, if_pos hretries, hatt, Option.some_bind]
  simp only [Bool.true_or, if_true]
  exact ⟨_, rfl, rfl, rfl, rfl, hc1⟩

theorem prepare_icmp_packet_some (ident : Nat) (tv : timeval) (seq_num packet_size : Int)
    (h1 : 24 ≤ packet_size) (h2 : packet_size ≤ 65536) :
    ∃ pkt, prepare_icmp_packet ident tv seq_num packet_size = some pkt := by
  obtain ⟨m, rfl⟩ : ∃ m : Nat, packet_size = (m : Int) + 24 :=
    ⟨(packet_size - 24).toNat, by omega⟩
  exact ⟨_, prepare_icmp_packet_eq ident tv seq_num m h2⟩

/-- One iteration of the probe loop under the assumptions of the scenario, up to and
including `seq_num++`. -/
theorem probe_loop_step (cfg : ping_config) (env : environment) (n r : Nat)
    (U : Finset Nat)
    (hcount : cfg.count = n) (hretries : cfg.retries = r)
    (hsize1 : 24 ≤ cfg.packet_size) (hsize2 : cfg.packet_size ≤ 65536)
    (hstop : ∀ i, env.stop_ping i = false)
    (hsend : ∀ a, (env.attempts a).send_ok = true)
    (hlost : ∀ k ∈ U, ∀ j ≤ r, (env.attempts (first_attempt U r k + j)).inbound = none)
    (hmatched : ∀ k < n, k ∉ U → ∃ bytes t cv dv,
      (env.attempts (first_attempt U r k)).inbound = some (bytes, t) ∧
      is_our_reply cfg.ident k (icmp_of bytes) = some true ∧
      verify_checksum (icmp_of bytes) = some cv ∧
      verify_packet_integrity (icmp_of bytes) (data_size_of bytes) = some dv)
    (fuel k : Nat) (st : run_state) (hk : k < n) (hinv : scenario_invariant U r k st) :
    ∃ st2, scenario_invariant U r (k + 1) st2 ∧
      probe_loop cfg env (fuel + 1) st =
        if (cfg.count != -1 && decide (st2.globals.original_send_count ≥ cfg.count)) = true
        then some st2
        else probe_loop cfg env fuel { st2 with sleeps := st2.sleeps ++ [cfg.interval * 1000] }
    := by
  obtain ⟨hseq, hatt, hcnt⟩ := hinv
  simp only [counters, Prod.mk.injEq] at hcnt
  obtain ⟨ho, hsd, hrs, hrc⟩ := hcnt
  have hcond : (!env.stop_ping st.iterations &&
      (cfg.count == -1 || decide (st.globals.original_send_count < cfg.count))) = true := by
    rw [hstop, hcount, ho]
    simp only [Bool.not_false, Bool.true_and, Bool.or_eq_true, decide_eq_true_eq]
    exact Or.inr (by exact_mod_cast hk)
  obtain ⟨pkt, hpkt⟩ := prepare_icmp_packet_some cfg.ident (env.probe_time st.iterations)
    st.seq_num cfg.packet_size hsize1 hsize2
  have hg := counters_begin_probe st.globals st.seq_num (env.history_time st.iterations)
  rw [ho, hsd, hrs, hrc] at hg
  have hfuel : (cfg.retries + 1).toNat = r + 1 := by rw [hretries]; omega
  rw [probe_loop, if_pos hcond, hpkt, Option.some_bind, hfuel]
  dsimp only
  by_cases hkU : k ∈ U
  · obtain ⟨st1, hloop, ha, hs, _, hc⟩ := retry_loop_timeouts cfg env r hretries hsize1 hsize2
      (r + 1) (r + 1) 0
      { st with
        globals := begin_probe st.globals st.seq_num (env.history_time st.iterations)
        iterations := st.iterations + 1 }
      (by omega) (le_refl _)
      (fun j hj => ⟨hsend _, by
        have := hlost k hkU j (by omega)
        rwa [← hatt] at this⟩)
    simp only [Nat.cast_zero] at hloop
    rw [hloop, Option.some_bind]
    refine ⟨{ st1 with seq_num := st1.seq_num + 1 }, ⟨?_, ?_, ?_⟩, rfl⟩
    · simp only [hs, hseq]; push_cast; rfl
    · simp only [ha, hatt, first_attempt, unanswered_below_succ, if_pos hkU]; ring
    · simp only [hc]
      simp only [counters, Prod.mk.injEq] at hg
      obtain ⟨h1, h2, h3, h4⟩ := hg
      rw [h1, h2, h3, h4, unanswered_below_succ, if_pos hkU]
      simp only [if_true, Nat.add_sub_cancel, Prod.mk.injEq]
      refine ⟨by push_cast; ring, by push_cast; ring, by push_cast; ring, by push_cast; ring⟩
  · obtain ⟨bytes, t, cv, dv, hin, hmatch, hcv, hdv⟩ := hmatched k hk hkU
    rw [← hatt] at hin
    obtain ⟨st1, hloop, ha, hs, _, hc⟩ := retry_loop_matched cfg env r
      { st with
        globals := begin_probe st.globals st.seq_num (env.history_time st.iterations)
        iterations := st.iterations + 1 }
      bytes t cv dv (by rw [hretries]; omega) (hsend _) hin (by rw [hseq]; exact hmatch) hcv hdv
    rw [hloop, Option.some_bind]
    refine ⟨{ st1 with seq_num := st1.seq_num + 1 }, ⟨?_, ?_, ?_⟩, rfl⟩
    · simp only [hs, hseq]; push_cast; rfl
    · simp only [ha, hatt, first_attempt, unanswered_below_succ, if_neg hkU]; ring
    · simp only [hc]
      simp only [counters, Prod.mk.injEq] at hg
      obtain ⟨h1, h2, h3, h4⟩ := hg
      rw [h1, h2, h3, h4, unanswered_below_succ, if_neg hkU]
      simp only [Nat.add_zero, Prod.mk.injEq]
      refine ⟨by push_cast; ring, by push_cast; ring, trivial, by push_cast; ring⟩

/-- The probe loop from the start of the iteration for sequence `k`, with `m + 1`
iterations to go, under the assumptions of the scenario: it ends after sequence `n - 1`. -/
theorem probe_loop_scenario (cfg : ping_config) (env : environment) (n r : Nat)
    (U : Finset Nat)
    (hcount : cfg.count = n) (hretries : cfg.retries = r)
    (hsize1 : 24 ≤ cfg.packet_size) (hsize2 : cfg.packet_size ≤ 65536)
    (hstop : ∀ i, env.stop_ping i = false)
    (hsend : ∀ a, (env.attempts a).send_ok = true)
    (hlost : ∀ k ∈ U, ∀ j ≤ r, (env.attempts (first_attempt U r k + j)).inbound = none)
    (hmatched : ∀ k < n, k ∉ U → ∃ bytes t cv dv,
      (env.attempts (first_attempt U r k)).inbound = some (bytes, t) ∧
      is_our_reply cfg.ident k (icmp_of bytes) = some true ∧
      verify_checksum (icmp_of bytes) = some cv ∧
      verify_packet_integrity (icmp_of bytes) (data_size_of bytes) = some dv) :
    ∀ (m fuel k : Nat) (st : run_state), k + (m + 1) = n → m + 1 ≤ fuel →
    scenario_invariant U r k st →
    ∃ st1, probe_loop cfg env fuel st = some st1 ∧ scenario_invariant U r n st1 := by
  intro m
  induction m with
  | zero =>
    intro fuel k st hk hfuel hinv
    obtain ⟨fuel, rfl⟩ : ∃ f, fuel = f + 1 := ⟨fuel - 1, by omega⟩
    obtain ⟨st2, hinv2, hloop⟩ := probe_loop_step cfg env n r U hcount hretries hsize1 hsize2
      hstop hsend hlost hmatched fuel k st (by omega) hinv
    have ho : st2.globals.original_send_count = ((k + 1 : Nat) : Int) := by
      have := hinv2.2.2
      simp only [counters, Prod.mk.injEq] at this
      exact this.1
    have hexit : (cfg.count != -1 && decide (st2.globals.original_send_count ≥ cfg.count)) =
        true := by
      rw [hcount, ho]
      simp only [bne_iff_ne, ne_eq, Bool.and_eq_true, decide_eq_true_eq]
      constructor
      · omega
      · exact_mod_cast (by omega : n ≤ k + 1)
    rw [if_pos hexit] at hloop
    refine ⟨st2, hloop, ?_⟩
    rwa [show k + 1 = n by omega] at hinv2
  | succ m ih =>
    intro fuel k st hk hfuel hinv
    obtain ⟨fuel, rfl⟩ : ∃ f, fuel = f + 1 := ⟨fuel - 1, by omega⟩
    obtain ⟨st2, hinv2, hloop⟩ := probe_loop_step cfg env n r U hcount hretries hsize1 hsize2
      hstop hsend hlost hmatched fuel k st (by omega) hinv
    have ho : st2.globals.original_send_count = ((k + 1 : Nat) : Int) := by
      have := hinv2.2.2
      simp only [counters, Prod.mk.injEq] at this
      exact this.1
    have hexit : ¬ (cfg.count != -1 && decide (st2.globals.original_send_count ≥ cfg.count)) =
        true := by
      rw [hcount, ho]
      simp only [bne_iff_ne, ne_eq, Bool.and_eq_true, decide_eq_true_eq, not_and, not_le]
      intro _
      exact_mod_cast (by omega : k + 1 < n)
    rw [if_neg hexit] at hloop
    obtain ⟨st1, hrun, hfin⟩ := ih fuel (k + 1)
      { st2 with sleeps := st2.sleeps ++ [cfg.interval * 1000] } (by omega) (by omega)
      ⟨hinv2.1, hinv2.2.1, hinv2.2.2⟩
    exact ⟨st1, by rw [hloop, hrun], hfin⟩

theorem scenario_invariant_initial (U : Finset Nat) (r : Nat) :
    scenario_invariant U r 0 initial_run_state := by
  refine ⟨rfl, ?_, ?_⟩
  · simp [first_attempt, unanswered_below_zero, initial_run_state]
  · simp [counters, unanswered_below_zero, initial_run_state, initial_state]

theorem is_matched_spec (ident : Nat) (seq_num : Int) (inbound : Option (List Nat × timeval))
    (h : is_matched ident seq_num inbound = true) :
    ∃ bytes t cv dv, inbound = some (bytes, t) ∧
      is_our_reply ident seq_num (icmp_of bytes) = some true ∧
      verify_checksum (icmp_of bytes) = some cv ∧
      verify_packet_integrity (icmp_of bytes) (data_size_of bytes) = some dv := by
  cases inbound with
  | none => simp [is_matched] at h
  | some p =>
    obtain ⟨bytes, t⟩ := p
    simp only [is_matched, Bool.and_eq_true, decide_eq_true_eq, Option.isSome_iff_exists] at h
    obtain ⟨⟨hm, cv, hcv⟩, dv, hdv⟩ := h
    exact ⟨bytes, t, cv, dv, rfl, hm, hcv, hdv⟩

/-- C11: for every run of the probe loop with `count = n >= 1`, `retries = r >= 0` and a
packet size that `prepare_icmp_packet` can build, in which no stop is requested, every
transmission succeeds, the sequences in a set `U` receive nothing in any of their `r + 1`
attempts and every other sequence receives the awaited reply in its first attempt: the
loop ends, and at its exit `original_send_count = n`, `send_count = n + r * |U|`,
`resend_count = r * |U|`, `recv_count = n - |U|` and `print_statistics` reports the loss
`|U| / n * 100`. The attempts of a run are numbered in the order of transmission, so the
first attempt for sequence `k` has the number `first_attempt U r k`. -/
theorem run_counters (cfg : ping_config) (env : environment) (n r fuel : Nat)
    (U : Finset Nat)
    (hcount : cfg.count = n) (hn : 1 ≤ n) (hint : (n : Int) < 2 ^ 31)
    (hretries : cfg.retries = r)
    (hsize1 : 24 ≤ cfg.packet_size) (hsize2 : cfg.packet_size ≤ 65536)
    (hfuel : n ≤ fuel)
    (hU : ∀ k ∈ U, k < n)
    (hstop : ∀ i, env.stop_ping i = false)
    (hsend : ∀ a, (env.attempts a).send_ok = true)
    (hlost : ∀ k ∈ U, ∀ j ≤ r, (env.attempts (first_attempt U r k + j)).inbound = none)
    (hmatched : ∀ k < n, k ∉ U →
      is_matched cfg.ident k (env.attempts (first_attempt U r k)).inbound = true) :
    ∃ st, probe_loop cfg env fuel initial_run_state = some st ∧
      st.globals.original_send_count = n ∧
      st.globals.send_count = n + r * U.card ∧
      st.globals.resend_count = r * U.card ∧
      st.globals.recv_count = n - U.card ∧
      (print_statistics st.globals).loss = some ((U.card : ℚ) / n * 100) := by
  obtain ⟨st, hrun, -, -, hc⟩ := probe_loop_scenario cfg env n r U hcount hretries hsize1
    hsize2 hstop hsend hlost (fun k hk hkU => is_matched_spec _ _ _ (hmatched k hk hkU))
    (n - 1) fuel 0 initial_run_state (by omega) (by omega) (scenario_invariant_initial U r)
  rw [unanswered_below_all U n hU] at hc
  simp only [counters, Prod.mk.injEq] at hc
  obtain ⟨ho, hsd, hrs, hrc⟩ := hc
  refine ⟨st, hrun, ho, hsd, hrs, hrc, ?_⟩
  have hle : U.card ≤ n := by
    rw [← unanswered_below_all U n hU]; exact unanswered_below_le U n
  have hne : (n : Int) ≠ 0 := by omega
  have hq : ((n : Int) : ℚ) ≠ 0 := by exact_mod_cast hne
  have h32 : to_int32 ((n : Int) - ((n : Int) - (U.card : Int))) = (U.card : Int) := by
    rw [to_int32_of_range _ (by omega) (by omega)]; ring
  simp only [print_statistics, loss_percentage, ho, hrc, if_pos hne, fdiv, if_neg hq, h32]
  congr 1
  push_cast
  field_simp

set_option maxRecDepth 100000 in
/-- C11 at `count = 3`, `retries = 2`, `U = {1}` (three transmissions for sequence 1, five in
all, two retransmitted, two received, loss 100/3 percent) and at `count = 5`, `retries = 0`,
`U` empty (five sent, five received, none retransmitted, loss 0). -/
theorem run_counters_witness :
    ((∀ k ∈ ({1} : Finset Nat), ∀ j ≤ 2,
      (lossy_environment.attempts (first_attempt {1} 2 k + j)).inbound = none) ∧
    (∀ k < 3, k ∉ ({1} : Finset Nat) →
      is_matched lossy_config.ident k
        (lossy_environment.attempts (first_attempt {1} 2 k)).inbound = true) ∧
    (∃ st, probe_loop lossy_config lossy_environment 3 initial_run_state = some st ∧
      st.globals.original_send_count = (3 : Nat) ∧
      st.globals.send_count = (3 : Nat) + (2 : Nat) * ({1} : Finset Nat).card ∧
      st.globals.resend_count = (2 : Nat) * ({1} : Finset Nat).card ∧
      st.globals.recv_count = (3 : Nat) - ({1} : Finset Nat).card ∧
      (print_statistics st.globals).loss =
        some ((({1} : Finset Nat).card : ℚ) / (3 : Nat) * 100))) ∧
    ((∀ k < 5, k ∉ (∅ : Finset Nat) →
      is_matched all_answered_config.ident k
        ((answering_environment all_answered_config).attempts
          (first_attempt ∅ 0 k)).inbound = true) ∧
    (∃ st, probe_loop all_answered_config (answering_environment all_answered_config) 5
        initial_run_state = some st ∧
      st.globals.original_send_count = (5 : Nat) ∧
      st.globals.send_count = (5 : Nat) + (0 : Nat) * (∅ : Finset Nat).card ∧
      st.globals.resend_count = (0 : Nat) * (∅ : Finset Nat).card ∧
      st.globals.recv_count = (5 : Nat) - (∅ : Finset Nat).card ∧
      (print_statistics st.globals).loss =
        some (((∅ : Finset Nat).card : ℚ) / (5 : Nat) * 100))) :=
  ⟨⟨by decide, by decide,
    run_counters lossy_config lossy_environment 3 2 3 {1} rfl (by decide) (by decide) rfl
      (by decide) (by decide) (by decide) (by decide) (fun _ => rfl) (fun _ => rfl)
      (by decide) (by decide)⟩,
   ⟨by decide,
    run_counters all_answered_config (answering_environment all_answered_config) 5 0 5 ∅ rfl
      (by decide) (by decide) rfl (by decide) (by decide) (by decide) (by decide)
      (fun _ => rfl) (fun _ => rfl) (by decide) (by decide)⟩⟩

end EnhancedPing
